import Mathlib

/-!
# The struct-field validator (`validator.go`)

A shallow embedding of the Go package `validator` and theorems about it.

Conventions of the embedding:

* a Go `string` is a sequence of bytes (`GoString`), `len` is its number of bytes;
  a text (a sequence of Unicode characters, a Lean `String`) is held by a Go
  string as its UTF-8 encoding (`lit`);
* Go `int` is 64 bits wide (`intSize = 64`), as on the usual targets;
* a run-time panic is the `Except.error` outcome of the `Go` monad;
* `reflect` is modelled by what the package reads from it: the kind of a type,
  and for each field of a struct type its `validate` tag, whether it is
  exported, and its value.
-/

namespace Validator

/-! ## Go strings -/

/-- A Go `byte` (`uint8`); its arithmetic wraps modulo 256. -/
abbrev Byte := Fin 256

/-- A Go `string`: a finite sequence of bytes. -/
abbrev GoString := List Byte

/-- The UTF-8 encoding of the Unicode scalar value with code point `n`. -/
def utf8Encode (n : Nat) : GoString :=
  if n < 0x80 then
    [Fin.ofNat n]
  else if n < 0x800 then
    [Fin.ofNat (0xC0 + n / 0x40), Fin.ofNat (0x80 + n % 0x40)]
  else if n < 0x10000 then
    [Fin.ofNat (0xE0 + n / 0x1000), Fin.ofNat (0x80 + n / 0x40 % 0x40),
      Fin.ofNat (0x80 + n % 0x40)]
  else
    [Fin.ofNat (0xF0 + n / 0x40000), Fin.ofNat (0x80 + n / 0x1000 % 0x40),
      Fin.ofNat (0x80 + n / 0x40 % 0x40), Fin.ofNat (0x80 + n % 0x40)]

/-- The Go string that holds the text `t`: its UTF-8 encoding (Go string
literals and Go source text are UTF-8). -/
def lit (t : String) : GoString :=
  t.toList.flatMap (fun c => utf8Encode c.toNat)

/-- A text is ASCII when each of its characters is encoded in a single byte. -/
def IsASCII (t : String) : Prop :=
  ∀ c ∈ t.toList, c.toNat < 0x80

/-! ## Run-time panics -/

/-- The ways in which the modelled code can leave the model. -/
inductive Fault
  /-- A method call through a nil interface value. -/
  | nilDereference
  /-- Index out of range on a slice. -/
  | indexOutOfRange
  /-- `reflect.Value.Int` on a value whose kind is not a signed integer kind. -/
  | intOfNonInt
  /-- `reflect.Value.String` on a value whose kind is not `String`: no panic in
  Go, but the result is a placeholder built from the type name, which the
  model does not represent. -/
  | stringOfNonString
  deriving DecidableEq, Repr

/-- Computations that return a value or panic. -/
abbrev Go (α : Type) := Except Fault α

/-- Slice indexing `l[i]`. -/
def index {α : Type} (l : List α) (i : Nat) : Go α :=
  match l.get? i with
  | some a => pure a
  | none => throw Fault.indexOutOfRange

/-- Short-circuit conjunction `a && b`, where evaluating `b` may panic. -/
def andAlso (a : Bool) (b : Go Bool) : Go Bool :=
  if a then b else pure false

/-! ## `strconv` -/

/-- The two causes of a `*strconv.NumError`. -/
inductive NumErrKind
  | ErrSyntax
  | ErrRange
  deriving DecidableEq, Repr

/-- The record `strconv.NumError`. -/
structure NumError where
  Func : GoString
  Num : GoString
  Err : NumErrKind
  deriving DecidableEq, Repr

/-- Width of `int`. -/
def intSize : Nat := 64

/-- The digit loop of the fast path of `strconv.Atoi`:
`ch -= '0'; if ch > 9 then syntax error; n = n*10 + int(ch)`. -/
def Atoi.fastLoop : GoString → Int → Option Int
  | [], n => some n
  | ch :: s, n =>
    let d : Byte := ch - 48
    if d > 9 then none else Atoi.fastLoop s (n * 10 + (d.val : Int))

/-- The digit loop of `strconv.ParseUint(s, 10, 64)`; `n` is the `uint64`
accumulator. Any byte that is not a decimal digit is a syntax error (an
underscore is only allowed for base 0, a letter is a digit `≥ 10`). -/
def ParseUint.loop : GoString → Nat → Nat × Option NumErrKind
  | [], n => (n, none)
  | c :: s, n =>
    if 48 ≤ c ∧ c ≤ 57 then
      let d : Nat := c.val - 48
      if n ≥ (2 ^ 64 - 1) / 10 + 1 then
        (2 ^ 64 - 1, some NumErrKind.ErrRange)
      else
        let n10 := n * 10 % 2 ^ 64
        let n1 := (n10 + d) % 2 ^ 64
        if n1 < n10 ∨ n1 > 2 ^ 64 - 1 then
          (2 ^ 64 - 1, some NumErrKind.ErrRange)
        else
          ParseUint.loop s n1
    else
      (0, some NumErrKind.ErrSyntax)

/-- The function `strconv.ParseUint(s, 10, 64)`. -/
def ParseUint (s : GoString) : Nat × Option NumErrKind :=
  if s = [] then (0, some NumErrKind.ErrSyntax) else ParseUint.loop s 0

/-- The function `strconv.ParseInt(s, 10, 0)` with 64-bit `int`. The result
`int64(un)`, negated when `neg`, is `-un` resp. `un` since `un ≤ 2^63` resp.
`un < 2^63` there. -/
def ParseInt (s : GoString) : Int × Option NumErrKind :=
  if s = [] then
    (0, some NumErrKind.ErrSyntax)
  else
    let neg : Bool := s.head? = some 45
    let s1 := if s.head? = some 43 then s.tail else if s.head? = some 45 then s.tail else s
    let r := ParseUint s1
    if r.2 = some NumErrKind.ErrSyntax then
      (0, some NumErrKind.ErrSyntax)
    else
      let cutoff : Nat := 2 ^ (intSize - 1)
      if neg = false ∧ r.1 ≥ cutoff then
        ((cutoff : Int) - 1, some NumErrKind.ErrRange)
      else if neg = true ∧ r.1 > cutoff then
        (-(cutoff : Int), some NumErrKind.ErrRange)
      else
        (if neg then -(r.1 : Int) else (r.1 : Int), none)

/-- The function `strconv.Atoi`: the parsed `int` and the error (nil on
success). On a syntax error the `int` is 0, on a range error it is the nearest
bound. -/
def Atoi (s : GoString) : Int × Option NumError :=
  let sLen := s.length
  if 0 < sLen ∧ sLen < 19 then
    let s1 := if s.head? = some 45 ∨ s.head? = some 43 then s.tail else s
    if s1.length < 1 then
      (0, some ⟨lit "Atoi", s, NumErrKind.ErrSyntax⟩)
    else
      match Atoi.fastLoop s1 0 with
      | none => (0, some ⟨lit "Atoi", s, NumErrKind.ErrSyntax⟩)
      | some n => (if s.head? = some 45 then -n else n, none)
  else
    let r := ParseInt s
    (r.1, r.2.map (fun k => ⟨lit "Atoi", s, k⟩))

/-- Decimal digits of a natural number, most significant first. -/
def decimal (n : Nat) : GoString :=
  (Nat.toDigits 10 n).map (fun c => Fin.ofNat c.toNat)

/-- The function `strconv.FormatInt(i, 10)`. -/
def FormatInt (i : Int) : GoString :=
  if i < 0 then lit "-" ++ decimal i.natAbs else decimal i.toNat

/-- The function `strconv.Itoa`. -/
def Itoa (i : Int) : GoString := FormatInt i

/-! ## `strings` -/

/-- The function `strings.IndexByte`; `none` stands for the `-1` of Go. It is what
`strings.Index` computes for a separator of one byte. -/
def IndexByte : GoString → Byte → Option Nat
  | [], _ => none
  | b :: s, c => if b = c then some 0 else (IndexByte s c).map (fun m => m + 1)

/-- The loop of `strings.genSplit`, for a separator of one byte; the first
argument is `n - 1 - i`, the number of cuts still allowed:
`m := Index(s, sep); if m < 0 then break; a[i] = s[:m]; s = s[m+len(sep):]`,
and after the loop `a[i] = s`. -/
def genSplit.loop (sep : Byte) : Nat → GoString → List GoString
  | 0, s => [s]
  | k + 1, s =>
    match IndexByte s sep with
    | none => [s]
    | some m => s.take m :: genSplit.loop sep k (s.drop (m + 1))

/-- The function `strings.genSplit(s, sep, 0, n)` for a separator `sep` of one
byte (the package only splits on ":" and ","). -/
def genSplit (s : GoString) (sep : Byte) (n : Int) : List GoString :=
  if n = 0 then
    []
  else
    let n1 : Nat := if n < 0 then s.count sep + 1 else n.toNat
    let n2 : Nat := if n1 > s.length + 1 then s.length + 1 else n1
    genSplit.loop sep (n2 - 1) s

/-- The function `strings.Split(s, sep)`. -/
def Split (s : GoString) (sep : Byte) : List GoString := genSplit s sep (-1)

/-- The function `strings.SplitN(s, sep, n)`. -/
def SplitN (s : GoString) (sep : Byte) (n : Int) : List GoString := genSplit s sep n

/-- The function `strings.HasSuffix`. -/
def HasSuffix (s suffix : GoString) : Bool :=
  decide (s.length ≥ suffix.length ∧ s.drop (s.length - suffix.length) = suffix)

/-- The function `strings.TrimSuffix`. -/
def TrimSuffix (s suffix : GoString) : GoString :=
  if HasSuffix s suffix then s.take (s.length - suffix.length) else s

/-! ## Errors -/

/-- The non-nil values of the interface `error` that the package handles, other
than `ValidationErrors`: the five package-level errors (each a distinct value
made once by `errors.New`), an error made by `errors.New` during a call, and a
`*strconv.NumError`. -/
inductive ErrorValue
  | ErrNotStruct
  | ErrInvalidValidatorSyntax
  | ErrValidateForUnexportedFields
  | ErrValidateForUnsupportedValidator
  | ErrValidateForUnsupportedType
  | fundamental (msg : GoString)
  | num (e : NumError)
  deriving DecidableEq, Repr

export ErrorValue (ErrNotStruct ErrInvalidValidatorSyntax ErrValidateForUnexportedFields
  ErrValidateForUnsupportedValidator ErrValidateForUnsupportedType)

/-- The function `errors.New`, called while validating. -/
def errors.New (msg : GoString) : ErrorValue := ErrorValue.fundamental msg

/-- The interface `error` as the evaluators return it: nil or a value. -/
abbrev error := Option ErrorValue

/-- The method `Error()` of `*strconv.NumError`; `Quote` is `strconv.Quote`. -/
def NumError.Error (Quote : GoString → GoString) (e : NumError) : GoString :=
  lit "strconv." ++ e.Func ++ lit ": parsing " ++ Quote e.Num ++ lit ": " ++
    (match e.Err with
     | NumErrKind.ErrSyntax => lit "invalid syntax"
     | NumErrKind.ErrRange => lit "value out of range")

/-- The method `Error()` of an error value; `Quote` is `strconv.Quote`. -/
def ErrorValue.Error (Quote : GoString → GoString) : ErrorValue → GoString
  | ErrorValue.ErrNotStruct => lit "wrong argument given, should be a struct"
  | ErrorValue.ErrInvalidValidatorSyntax => lit "invalid validator syntax"
  | ErrorValue.ErrValidateForUnexportedFields =>
    lit "validation for unexported field is not allowed"
  | ErrorValue.ErrValidateForUnsupportedValidator => lit "used unsupported validator"
  | ErrorValue.ErrValidateForUnsupportedType => lit "used unsupported type with validator"
  | ErrorValue.fundamental msg => msg
  | ErrorValue.num e => e.Error Quote

/-- The struct `ValidationError`. -/
structure ValidationError where
  Err : error
  deriving DecidableEq, Repr

/-- The type `ValidationErrors`. -/
abbrev ValidationErrors := List ValidationError

/-- The constant `Max`. -/
def Max : Int := 1

/-- The constant `Min`. -/
def Min : Int := -1

/-- The loop of `ValidationErrors.Error`:
`resultErr += err.Err.Error() + " >>= "`; it panics on a nil `Err`. -/
def ValidationErrors.Error.loop (Quote : GoString → GoString) :
    ValidationErrors → GoString → Go GoString
  | [], resultErr => pure resultErr
  | err :: v, resultErr =>
    match err.Err with
    | none => throw Fault.nilDereference
    | some e => ValidationErrors.Error.loop Quote v (resultErr ++ (e.Error Quote ++ lit " >>= "))

/-- The method `ValidationErrors.Error`. -/
def ValidationErrors.Error (Quote : GoString → GoString) (v : ValidationErrors) : Go GoString := do
  let resultErr ← ValidationErrors.Error.loop Quote v (lit "")
  return TrimSuffix resultErr (lit " >>= ")

/-! ## `reflect` -/

/-- The constants of `reflect.Kind`. -/
inductive Kind
  | Invalid | Bool | Int | Int8 | Int16 | Int32 | Int64
  | Uint | Uint8 | Uint16 | Uint32 | Uint64 | Uintptr
  | Float32 | Float64 | Complex64 | Complex128
  | Array | Chan | Func | Interface | Map | Pointer | Slice | String | Struct
  | UnsafePointer
  deriving DecidableEq, Repr

/-- A `reflect.Value` as the evaluators see it: its kind, the integer that
`Int()` returns when the kind is a signed integer kind, and the string that
`String()` returns when the kind is `String`. -/
structure Value where
  kind : Kind
  num : Int
  str : GoString
  deriving DecidableEq, Repr

/-- The method `reflect.Value.Kind`. -/
def Value.Kind (val : Value) : Kind := val.kind

/-- The method `reflect.Value.Int`: it panics unless the kind is one of `Int`,
`Int8`, `Int16`, `Int32`, `Int64`. -/
def Value.Int (val : Value) : Go Int :=
  if val.kind = Kind.Int ∨ val.kind = Kind.Int8 ∨ val.kind = Kind.Int16 ∨
      val.kind = Kind.Int32 ∨ val.kind = Kind.Int64 then
    pure val.num
  else
    throw Fault.intOfNonInt

/-- The method `reflect.Value.String`, modelled for the kind `String`. -/
def Value.String (val : Value) : Go GoString :=
  if val.kind = Kind.String then pure val.str else throw Fault.stringOfNonString

/-- A value of Go type `int`. -/
def intValue (n : Int) : Value := ⟨Kind.Int, n, []⟩

/-- A value of Go type `string`. -/
def stringValue (s : GoString) : Value := ⟨Kind.String, 0, s⟩

/-- A field of a struct type together with the field's value: what
`varType.Field(i).Tag.Get("validate")`, `varType.Field(i).IsExported()` and
`varValue.Field(i)` return. -/
structure StructField where
  tag : GoString
  exported : Bool
  value : Value
  deriving DecidableEq, Repr

/-- The dynamic type and value of a non-nil `any`: the kind of the type and,
for a struct, its fields in declaration order. -/
structure Dynamic where
  kind : Kind
  fields : List StructField
  deriving DecidableEq, Repr

/-- A value of the interface type `any`: nil, or a dynamic type and value. -/
abbrev Any := Option Dynamic

/-- The function `reflect.TypeOf`: nil for the nil interface. -/
def TypeOf (v : Any) : Option Dynamic := v

/-- Short-circuit disjunction `a || b`, where evaluating `b` may panic. -/
def orElse (a : Bool) (b : Go Bool) : Go Bool :=
  if a then pure true else b

/-! ## The evaluators -/

/-- The function `ValidateMaxMin`. -/
def ValidateMaxMin (val : Value) (args : List GoString) (t : Int) : Go error := do
  if args.length ≠ 1 then
    return some ErrInvalidValidatorSyntax
  let r := Atoi (← index args 0)
  if r.2 ≠ none then
    return some ErrInvalidValidatorSyntax
  let expVal := r.1
  if ← andAlso (decide (val.Kind = Kind.Int ∧ t = Max))
      (do return decide ((← val.Int) > expVal)) then
    return some (errors.New
      (lit "Integer " ++ FormatInt (← val.Int) ++ lit " is greater than " ++ Itoa expVal))
  else if ← andAlso (decide (val.Kind = Kind.Int ∧ t = Min))
      (do return decide ((← val.Int) < expVal)) then
    return some (errors.New
      (lit "Integer " ++ FormatInt (← val.Int) ++ lit " is less than " ++ Itoa expVal))
  else if ← andAlso (decide (val.Kind = Kind.String ∧ t = Max))
      (do return decide (((← val.String).length : Int) > expVal)) then
    return some (errors.New
      (lit "Length of string " ++ (← val.String) ++ lit " is greater than " ++ Itoa expVal))
  else if ← andAlso (decide (val.Kind = Kind.String ∧ t = Min))
      (do return decide (((← val.String).length : Int) < expVal)) then
    return some (errors.New
      (lit "Length of string " ++ (← val.String) ++ lit " is less than " ++ Itoa expVal))
  return none

/-- The loop of `ValidateIn` over the tokens for a value of kind `Int`, on the
variables `found` and `err`. -/
def ValidateIn.intLoop (val : Value) : List GoString → Bool → error → Go (Bool × error)
  | [], found, err => pure (found, err)
  | v :: rest, found, err => do
    let r := Atoi v
    if r.2 ≠ none ∧ err ≠ none then
      ValidateIn.intLoop val rest found (r.2.map ErrorValue.num)
    else if (← val.Int) = r.1 then
      ValidateIn.intLoop val rest true err
    else
      ValidateIn.intLoop val rest found err

/-- The loop of `ValidateIn` over the tokens for a value of kind `String`, on
the variable `found`. -/
def ValidateIn.stringLoop (val : Value) : List GoString → Bool → Go Bool
  | [], found => pure found
  | v :: rest, found => do
    if (← val.String) = v then
      ValidateIn.stringLoop val rest true
    else
      ValidateIn.stringLoop val rest found

/-- The function `ValidateIn`. -/
def ValidateIn (val : Value) (tokens : List GoString) : Go error := do
  let mut found := false
  let mut err : error := none
  if val.Kind = Kind.Int then
    let st ← ValidateIn.intLoop val tokens found err
    found := st.1
    err := st.2
  else if val.Kind = Kind.String then
    found ← ValidateIn.stringLoop val tokens found
  if err ≠ none then
    return err
  if !found then
    return some (errors.New (lit "value is not found"))
  return none

/-- The function `ValidateLen`. -/
def ValidateLen (val : Value) (length : List GoString) : Go error := do
  let r := Atoi (← index length 0)
  if r.2 ≠ none then
    return some ErrInvalidValidatorSyntax
  let expVal := r.1
  if val.Kind = Kind.Int then
    return some ErrValidateForUnsupportedValidator
  else if ← andAlso (decide (val.Kind = Kind.String))
      (do return decide (((← val.String).length : Int) ≠ expVal)) then
    return some (errors.New
      (lit "length of string " ++ (← val.String) ++ lit " is greater than " ++ Itoa expVal))
  return none

/-! ## `Validate` -/

/-- What the `error` returned by `Validate` holds: nil, one of the error
values, or a `ValidationErrors`. -/
inductive Returned
  | nil
  | err (e : ErrorValue)
  | errs (v : ValidationErrors)
  deriving DecidableEq, Repr

/-- One iteration of the loop of `Validate`, on the field `f` and the variable
`errs`; a `continue` returns from the iteration. The separators are the bytes
58 (":") and 44 (","). -/
def Validate.iteration (f : StructField) (errs : ValidationErrors) : Go ValidationErrors := do
  let tag := f.tag
  if tag = lit "" then
    return errs
  if !f.exported then
    return errs ++ [⟨some ErrValidateForUnexportedFields⟩]
  let splitTag := SplitN tag 58 2
  if ← orElse (decide (splitTag.length ≠ 2))
      (do return decide ((← index splitTag 1).length = 0)) then
    return errs ++ [⟨some ErrInvalidValidatorSyntax⟩]
  if f.value.Kind ≠ Kind.Int ∧ f.value.Kind ≠ Kind.String then
    return errs ++ [⟨some ErrValidateForUnsupportedType⟩]
  let tagName ← index splitTag 0
  let valParams := Split (← index splitTag 1) 44
  let mut err : error := none
  if tagName = lit "in" then
    err ← ValidateIn f.value valParams
  else if tagName = lit "max" then
    err ← ValidateMaxMin f.value valParams Max
  else if tagName = lit "min" then
    err ← ValidateMaxMin f.value valParams Min
  else if tagName = lit "len" then
    err ← ValidateLen f.value valParams
  else
    err := some ErrValidateForUnsupportedValidator
  if err ≠ none then
    return errs ++ [⟨err⟩]
  return errs

/-- The loop of `Validate` over the fields, in declaration order. -/
def Validate.loop : List StructField → ValidationErrors → Go ValidationErrors
  | [], errs => pure errs
  | f :: rest, errs => do
    let errs1 ← Validate.iteration f errs
    Validate.loop rest errs1

/-- The function `Validate`. -/
def Validate (v : Any) : Go Returned :=
  match TypeOf v with
  | none => throw Fault.nilDereference
  | some varType =>
    if varType.kind ≠ Kind.Struct then
      pure (Returned.err ErrNotStruct)
    else do
      let errs ← Validate.loop varType.fields []
      if errs.length = 0 then
        return Returned.nil
      return Returned.errs errs

/-! ## Vocabulary of the statements -/

deriving instance DecidableEq for Except

/-- The evaluator returned nil. -/
def succeeded (r : Go error) : Bool :=
  match r with
  | Except.ok none => true
  | _ => false

/-- The evaluator returned a non-nil error. -/
def failed (r : Go error) : Bool :=
  match r with
  | Except.ok (some _) => true
  | _ => false

/-- The failures that `Validate` reports for the struct whose only field is
`f`. -/
def fieldFailures (f : StructField) : ValidationErrors :=
  match Validate (some ⟨Kind.Struct, [f]⟩) with
  | Except.ok (Returned.errs v) => v
  | _ => []
/-- The function `strings.Join`: the elements of `a`, in order, with `sep`
between one and the next. -/
def Join : List GoString → GoString → GoString
  | [], _ => []
  | [s], _ => s
  | s :: t :: rest, sep => s ++ sep ++ Join (t :: rest) sep

/-- The message of a failure, what `err.Err.Error()` returns; a failure whose
`Err` is nil has none (the call panics) and the empty string stands for it. -/
def ValidationError.message (Quote : GoString → GoString) (err : ValidationError) : GoString :=
  match err.Err with
  | some e => e.Error Quote
  | none => []

/-- What the end of an iteration of the loop of `Validate` appends for the
error `e` of the evaluator: nothing when `e` is nil, else the failure holding
`e`. -/
def errorFailures (e : error) : ValidationErrors :=
  match e with
  | none => []
  | some x => [⟨some x⟩]

/-- The bytes that `strconv.Atoi` accepts somewhere in its argument: the
decimal digits and the signs "+" and "-". -/
def isIntByte (c : Byte) : Bool :=
  decide ((48 ≤ c ∧ c ≤ 57) ∨ c = 43 ∨ c = 45)

/-! ## Lemmas on the monad -/

@[simp] theorem ok_bind {α β : Type} (a : α) (f : α → Go β) :
    ((Except.ok a : Go α) >>= f) = f a := rfl

@[simp] theorem error_bind {α β : Type} (e : Fault) (f : α → Go β) :
    ((Except.error e : Go α) >>= f) = Except.error e := rfl

@[simp] theorem pure_eq_ok {α : Type} (a : α) : (pure a : Go α) = Except.ok a := rfl

@[simp] theorem throw_eq_error {α : Type} (e : Fault) : (throw e : Go α) = Except.error e := rfl

@[simp] theorem succeeded_ok_none : succeeded (Except.ok none) = true := rfl

@[simp] theorem succeeded_ok_some (e : ErrorValue) : succeeded (Except.ok (some e)) = false := rfl

@[simp] theorem failed_ok_none : failed (Except.ok none) = false := rfl

@[simp] theorem failed_ok_some (e : ErrorValue) : failed (Except.ok (some e)) = true := rfl

/-! ## Lemmas on texts and their encoding -/

theorem utf8Size_eq (c : Char) :
    c.utf8Size = if c.toNat < 0x80 then 1 else if c.toNat < 0x800 then 2
      else if c.toNat < 0x10000 then 3 else 4 := by
  have h1 : (UInt32.ofNatCore 127 Char.utf8Size.proof_1).toBitVec.toNat = 127 := rfl
  have h2 : (UInt32.ofNatCore 2047 Char.utf8Size.proof_2).toBitVec.toNat = 2047 := rfl
  have h3 : (UInt32.ofNatCore 65535 Char.utf8Size.proof_3).toBitVec.toNat = 65535 := rfl
  simp only [Char.utf8Size, Char.toNat, UInt32.le_def, UInt32.toNat, BitVec.le_def, h1, h2, h3]
  split_ifs <;> omega

theorem length_utf8Encode (c : Char) : (utf8Encode c.toNat).length = c.utf8Size := by
  rw [utf8Size_eq]
  unfold utf8Encode
  split_ifs <;> rfl

theorem length_flatMap_utf8Encode (cs : List Char) :
    (cs.flatMap (fun c => utf8Encode c.toNat)).length = String.utf8ByteSize ⟨cs⟩ := by
  induction cs with
  | nil => rfl
  | cons c cs ih =>
    simp only [List.flatMap_cons, List.length_append, ih, length_utf8Encode]
    simp [String.utf8ByteSize, String.utf8ByteSize.go, Nat.add_comm]

/-- The `len` of the Go string holding a text is the number of bytes of the
text in UTF-8. -/
theorem length_lit (t : String) : (lit t).length = t.utf8ByteSize :=
  length_flatMap_utf8Encode t.data

theorem length_flatMap_ascii (cs : List Char) (h : ∀ c ∈ cs, c.toNat < 0x80) :
    (cs.flatMap (fun c => utf8Encode c.toNat)).length = cs.length := by
  induction cs with
  | nil => rfl
  | cons c cs ih =>
    have hc : c.toNat < 0x80 := h c (List.mem_cons_self c cs)
    have hcs : ∀ d ∈ cs, d.toNat < 0x80 := fun d hd => h d (List.mem_cons_of_mem c hd)
    have h1 : (utf8Encode c.toNat).length = 1 := by simp [utf8Encode, hc]
    simp only [List.flatMap_cons, List.length_append, ih hcs, h1, List.length_cons]
    omega

/-- For an ASCII text, `len` is the number of characters. -/
theorem length_lit_of_isASCII (t : String) (h : IsASCII t) : (lit t).length = t.length :=
  length_flatMap_ascii t.data h

/-! ## Lemmas on the accessors and the evaluators -/

theorem Value.Int_of_kind (val : Value) (hk : val.Kind = Kind.Int) :
    val.Int = Except.ok val.num := by
  have h : val.kind = Kind.Int := hk
  simp [Value.Int, h]

theorem Value.String_of_kind (val : Value) (hk : val.Kind = Kind.String) :
    val.String = Except.ok val.str := by
  have h : val.kind = Kind.String := hk
  simp [Value.String, h]

/-- The result of `ValidateMaxMin` on a value of kind `Int`, for one token that
parses. -/
theorem ValidateMaxMin_of_int (val : Value) (v : Int) (tok : GoString) (b : Int)
    (hk : val.Kind = Kind.Int) (hv : val.Int = Except.ok v) (hb : Atoi tok = (b, none)) :
    ValidateMaxMin val [tok] Max =
        Except.ok (if v > b then some (errors.New
          (lit "Integer " ++ FormatInt v ++ lit " is greater than " ++ Itoa b)) else none) ∧
    ValidateMaxMin val [tok] Min =
        Except.ok (if v < b then some (errors.New
          (lit "Integer " ++ FormatInt v ++ lit " is less than " ++ Itoa b)) else none) := by
  constructor
  · simp [ValidateMaxMin, index, hb, hk, hv, andAlso, Max, Min]
    split <;> simp_all
  · simp [ValidateMaxMin, index, hb, hk, hv, andAlso, Max, Min]
    split <;> simp_all

/-- The result of `ValidateMaxMin` on a value of kind `String`, for one token
that parses. -/
theorem ValidateMaxMin_of_string (val : Value) (s : GoString) (tok : GoString) (b : Int)
    (hk : val.Kind = Kind.String) (hs : val.String = Except.ok s) (hb : Atoi tok = (b, none)) :
    ValidateMaxMin val [tok] Max =
        Except.ok (if (s.length : Int) > b then some (errors.New
          (lit "Length of string " ++ s ++ lit " is greater than " ++ Itoa b)) else none) ∧
    ValidateMaxMin val [tok] Min =
        Except.ok (if (s.length : Int) < b then some (errors.New
          (lit "Length of string " ++ s ++ lit " is less than " ++ Itoa b)) else none) := by
  constructor
  · simp [ValidateMaxMin, index, hb, hk, hs, andAlso, Max, Min]
    split <;> simp_all
  · simp [ValidateMaxMin, index, hb, hk, hs, andAlso, Max, Min]
    split <;> simp_all

/-- The result of `ValidateLen` on a value of kind `String`, when the first
token parses. -/
theorem ValidateLen_of_string (val : Value) (s : GoString) (tok : GoString)
    (rest : List GoString) (b : Int) (hk : val.Kind = Kind.String)
    (hs : val.String = Except.ok s) (hb : Atoi tok = (b, none)) :
    ValidateLen val (tok :: rest) =
        Except.ok (if (s.length : Int) ≠ b then some (errors.New
          (lit "length of string " ++ s ++ lit " is greater than " ++ Itoa b)) else none) := by
  simp [ValidateLen, index, hb, hk, hs, andAlso]
  split <;> simp_all

/-- The integer loop of `ValidateIn` started with no error recorded: no error is
ever recorded, and `found` is set as soon as the integer that `Atoi` returns
for a token, parsed or not, equals the value. -/
theorem ValidateIn.intLoop_none (val : Value) (v : Int) (hv : val.Int = Except.ok v)
    (tokens : List GoString) (found : Bool) :
    ValidateIn.intLoop val tokens found none =
      Except.ok (found || tokens.any (fun tok => decide ((Atoi tok).1 = v)), none) := by
  induction tokens generalizing found with
  | nil => simp [ValidateIn.intLoop]
  | cons tok rest ih =>
    simp only [ValidateIn.intLoop, hv, ne_eq, not_true_eq_false, and_false, if_false, ok_bind]
    by_cases h : v = (Atoi tok).1
    · simp [h, ih]
    · have h2 : ¬ (Atoi tok).1 = v := fun e => h e.symm
      simp [h, h2, ih]

/-- The result of `ValidateIn` on a value of kind `Int`. -/
theorem ValidateIn_of_int (val : Value) (v : Int) (hk : val.Kind = Kind.Int)
    (hv : val.Int = Except.ok v) (tokens : List GoString) :
    ValidateIn val tokens =
      Except.ok (if tokens.any (fun tok => decide ((Atoi tok).1 = v)) then none
        else some (errors.New (lit "value is not found"))) := by
  simp only [ValidateIn, hk, if_true, ValidateIn.intLoop_none val v hv]
  cases h : tokens.any (fun tok => decide ((Atoi tok).1 = v)) <;> simp [h]

/-- The string loop of `ValidateIn`. -/
theorem ValidateIn.stringLoop_eq (val : Value) (s : GoString) (hs : val.String = Except.ok s)
    (tokens : List GoString) (found : Bool) :
    ValidateIn.stringLoop val tokens found = Except.ok (found || decide (s ∈ tokens)) := by
  induction tokens generalizing found with
  | nil => simp [ValidateIn.stringLoop]
  | cons tok rest ih =>
    simp only [ValidateIn.stringLoop, hs, ok_bind]
    by_cases h : s = tok
    · simp [h, ih]
    · simp [h, ih]

/-- The result of `ValidateIn` on a value of kind `String`. -/
theorem ValidateIn_of_string (val : Value) (s : GoString) (hk : val.Kind = Kind.String)
    (hs : val.String = Except.ok s) (tokens : List GoString) :
    ValidateIn val tokens =
      Except.ok (if s ∈ tokens then none else some (errors.New (lit "value is not found"))) := by
  have hk2 : ¬ (Kind.String = Kind.Int) := by decide
  simp only [ValidateIn, hk, hk2, if_true, if_false, ValidateIn.stringLoop_eq val s hs]
  by_cases h : s ∈ tokens <;> simp [h]

/-- With one token that parses, `ValidateMaxMin` returns, and what it returns
is nil or an error made by `errors.New`. -/
theorem ValidateMaxMin_parsed (val : Value) (tok : GoString) (t : Int)
    (h : (Atoi tok).2 = none) :
    ValidateMaxMin val [tok] t = Except.ok none ∨
      ∃ msg, ValidateMaxMin val [tok] t = Except.ok (some (errors.New msg)) := by
  have hb : Atoi tok = ((Atoi tok).1, none) := Prod.ext rfl h
  have hMM : ¬ (Min = Max) := by decide
  by_cases hI : val.Kind = Kind.Int
  · have hS : ¬ (Kind.Int = Kind.String) := by decide
    obtain ⟨h1, h2⟩ := ValidateMaxMin_of_int val val.num tok _ hI (Value.Int_of_kind val hI) hb
    by_cases hMax : t = Max
    · rw [hMax, h1]
      split
      · exact Or.inr ⟨_, rfl⟩
      · exact Or.inl rfl
    · by_cases hMin : t = Min
      · rw [hMin, h2]
        split
        · exact Or.inr ⟨_, rfl⟩
        · exact Or.inl rfl
      · simp [ValidateMaxMin, index, h, andAlso, hI, hS, hMax, hMin]
  · by_cases hS : val.Kind = Kind.String
    · obtain ⟨h1, h2⟩ :=
        ValidateMaxMin_of_string val val.str tok _ hS (Value.String_of_kind val hS) hb
      by_cases hMax : t = Max
      · rw [hMax, h1]
        split
        · exact Or.inr ⟨_, rfl⟩
        · exact Or.inl rfl
      · by_cases hMin : t = Min
        · rw [hMin, h2]
          split
          · exact Or.inr ⟨_, rfl⟩
          · exact Or.inl rfl
        · simp [ValidateMaxMin, index, h, andAlso, hI, hS, hMax, hMin]
    · simp [ValidateMaxMin, index, h, andAlso, hI, hS]

/-- `ValidateIn` returns. -/
theorem ValidateIn_total (val : Value) (tokens : List GoString) :
    ∃ e, ValidateIn val tokens = Except.ok e := by
  by_cases hI : val.Kind = Kind.Int
  · exact ⟨_, ValidateIn_of_int val val.num hI (Value.Int_of_kind val hI) tokens⟩
  · by_cases hS : val.Kind = Kind.String
    · exact ⟨_, ValidateIn_of_string val val.str hS (Value.String_of_kind val hS) tokens⟩
    · exact ⟨some (errors.New (lit "value is not found")), by simp [ValidateIn, hI, hS]⟩

/-- `ValidateMaxMin` returns. -/
theorem ValidateMaxMin_total (val : Value) (args : List GoString) (t : Int) :
    ∃ e, ValidateMaxMin val args t = Except.ok e := by
  match args with
  | [] => exact ⟨_, by simp [ValidateMaxMin]; rfl⟩
  | _ :: _ :: _ => exact ⟨_, by simp [ValidateMaxMin]; rfl⟩
  | [tok] =>
    by_cases h : (Atoi tok).2 = none
    · rcases ValidateMaxMin_parsed val tok t h with h1 | ⟨msg, h1⟩
      · exact ⟨_, h1⟩
      · exact ⟨_, h1⟩
    · exact ⟨some ErrInvalidValidatorSyntax, by simp [ValidateMaxMin, index, h]⟩

/-- `ValidateLen` returns when it is given at least one token. -/
theorem ValidateLen_total (val : Value) (tok : GoString) (rest : List GoString) :
    ∃ e, ValidateLen val (tok :: rest) = Except.ok e := by
  by_cases h : (Atoi tok).2 = none
  · by_cases hI : val.Kind = Kind.Int
    · exact ⟨some ErrValidateForUnsupportedValidator, by simp [ValidateLen, index, h, hI]⟩
    · by_cases hS : val.Kind = Kind.String
      · exact ⟨_, ValidateLen_of_string val val.str tok rest _ hS
          (Value.String_of_kind val hS) (Prod.ext rfl h)⟩
      · exact ⟨none, by simp [ValidateLen, index, h, hI, hS, andAlso]⟩
  · exact ⟨some ErrInvalidValidatorSyntax, by simp [ValidateLen, index, h]⟩

/-! ## Lemmas on splitting and on the loop of `Validate` -/

theorem genSplit.loop_ne_nil (sep : Byte) (k : Nat) (s : GoString) :
    genSplit.loop sep k s ≠ [] := by
  cases k with
  | zero => simp [genSplit.loop]
  | succ k =>
    unfold genSplit.loop
    split <;> simp

/-- `strings.Split` returns at least one token. -/
theorem Split_eq_cons (s : GoString) (sep : Byte) : ∃ tok rest, Split s sep = tok :: rest := by
  have h : Split s sep ≠ [] := by
    simp only [Split, genSplit]
    exact genSplit.loop_ne_nil sep _ s
  cases hs : Split s sep with
  | nil => exact absurd hs h
  | cons tok rest => exact ⟨tok, rest, rfl⟩

/-- `strings.SplitN(s, sep, 2)` on a non-empty string cuts at the first
separator, if there is one. -/
theorem SplitN_two (s : GoString) (sep : Byte) (hs : s ≠ []) :
    SplitN s sep 2 =
      match IndexByte s sep with
      | none => [s]
      | some m => [s.take m, s.drop (m + 1)] := by
  have hl : ¬ (s.length + 1 < 2) := by
    cases s with
    | nil => exact absurd rfl hs
    | cons c cs => simp
  simp [SplitN, genSplit, hl, genSplit.loop]

/-- `strings.SplitN(s, sep, 2)` on a non-empty string returns one or two
pieces. -/
theorem SplitN_two_cases (s : GoString) (sep : Byte) (hs : s ≠ []) :
    SplitN s sep 2 = [s] ∨ ∃ a b, SplitN s sep 2 = [a, b] := by
  rw [SplitN_two s sep hs]
  cases IndexByte s sep with
  | none => exact Or.inl rfl
  | some m => exact Or.inr ⟨_, _, rfl⟩

/-- An iteration of the loop of `Validate` returns, and appends at most one
failure, which does not depend on the failures recorded before. -/
theorem Validate.iteration_append (f : StructField) :
    ∃ out : ValidationErrors, out.length ≤ 1 ∧
      ∀ errs, Validate.iteration f errs = Except.ok (errs ++ out) := by
  by_cases ht : f.tag = lit ""
  · exact ⟨[], by simp, fun errs => by simp [Validate.iteration, ht]⟩
  by_cases hx : f.exported = true
  swap
  · exact ⟨[⟨some ErrValidateForUnexportedFields⟩], by simp,
      fun errs => by simp [Validate.iteration, ht, hx]⟩
  rcases SplitN_two_cases f.tag 58 ht with hsplit | ⟨a, b, hsplit⟩
  · exact ⟨[⟨some ErrInvalidValidatorSyntax⟩], by simp,
      fun errs => by simp [Validate.iteration, ht, hx, hsplit, orElse]⟩
  by_cases hb : b = []
  · exact ⟨[⟨some ErrInvalidValidatorSyntax⟩], by simp,
      fun errs => by simp [Validate.iteration, ht, hx, hsplit, orElse, index, hb]⟩
  by_cases hkind : f.value.Kind ≠ Kind.Int ∧ f.value.Kind ≠ Kind.String
  · exact ⟨[⟨some ErrValidateForUnsupportedType⟩], by simp,
      fun errs => by simp [Validate.iteration, ht, hx, hsplit, orElse, index, hb, hkind]⟩
  obtain ⟨tok, rest, hparams⟩ := Split_eq_cons b 44
  have key : ∀ e : error, ∃ out : ValidationErrors, out.length ≤ 1 ∧
      ∀ errs : ValidationErrors,
        (if e = none then (Except.ok errs : Go ValidationErrors)
          else Except.ok (errs ++ [⟨e⟩])) = Except.ok (errs ++ out) := by
    intro e
    cases e with
    | none => exact ⟨[], by simp, fun errs => by simp⟩
    | some x => exact ⟨[⟨some x⟩], by simp, fun errs => by simp⟩
  by_cases hin : a = lit "in"
  · obtain ⟨e, he⟩ := ValidateIn_total f.value (tok :: rest)
    obtain ⟨out, hlen, hout⟩ := key e
    exact ⟨out, hlen, fun errs => by
      simp [Validate.iteration, ht, hx, hsplit, orElse, index, hb, hkind, hparams, hin, he]
      simpa using hout errs⟩
  by_cases hmax : a = lit "max"
  · obtain ⟨e, he⟩ := ValidateMaxMin_total f.value (tok :: rest) Max
    obtain ⟨out, hlen, hout⟩ := key e
    exact ⟨out, hlen, fun errs => by
      simp [Validate.iteration, ht, hx, hsplit, orElse, index, hb, hkind, hparams, hin, hmax,
        he]
      simpa using hout errs⟩
  by_cases hmin : a = lit "min"
  · obtain ⟨e, he⟩ := ValidateMaxMin_total f.value (tok :: rest) Min
    obtain ⟨out, hlen, hout⟩ := key e
    exact ⟨out, hlen, fun errs => by
      simp [Validate.iteration, ht, hx, hsplit, orElse, index, hb, hkind, hparams, hin, hmax,
        hmin, he]
      simpa using hout errs⟩
  by_cases hlen : a = lit "len"
  · obtain ⟨e, he⟩ := ValidateLen_total f.value tok rest
    obtain ⟨out, hlen2, hout⟩ := key e
    exact ⟨out, hlen2, fun errs => by
      simp [Validate.iteration, ht, hx, hsplit, orElse, index, hb, hkind, hparams, hin, hmax,
        hmin, hlen, he]
      simpa using hout errs⟩
  exact ⟨[⟨some ErrValidateForUnsupportedValidator⟩], by simp, fun errs => by
    simp [Validate.iteration, ht, hx, hsplit, orElse, index, hb, hkind, hparams, hin, hmax,
      hmin, hlen]⟩

/-- What an iteration appends is what `Validate` reports for the field taken
alone; it is at most one failure. -/
theorem Validate.iteration_eq (f : StructField) :
    (fieldFailures f).length ≤ 1 ∧
      ∀ errs, Validate.iteration f errs = Except.ok (errs ++ fieldFailures f) := by
  obtain ⟨out, hlen, hout⟩ := Validate.iteration_append f
  have hff : fieldFailures f = out := by
    have h0 := hout []
    simp only [List.nil_append] at h0
    cases out with
    | nil => simp [fieldFailures, Validate, TypeOf, Validate.loop, h0]
    | cons e es => simp [fieldFailures, Validate, TypeOf, Validate.loop, h0]
  rw [hff]
  exact ⟨hlen, hout⟩

/-- The loop of `Validate` appends, field after field, the failures of each
field. -/
theorem Validate.loop_eq (fields : List StructField) (errs : ValidationErrors) :
    Validate.loop fields errs = Except.ok (errs ++ fields.flatMap fieldFailures) := by
  induction fields generalizing errs with
  | nil => simp [Validate.loop]
  | cons f rest ih =>
    simp [Validate.loop, (Validate.iteration_eq f).2 errs, ih, List.flatMap_cons]

/-- On a non-nil input whose kind is not `Struct`, `Validate` returns
`ErrNotStruct`, whatever else the input holds. -/
theorem Validate_of_not_struct (d : Dynamic) (h : d.kind ≠ Kind.Struct) :
    Validate (some d) = Except.ok (Returned.err ErrNotStruct) := by
  simp [Validate, TypeOf, h]

/-! ## Lemmas on the annotation and on the failure of a field -/

theorem IndexByte_eq_none_iff (s : GoString) (c : Byte) : IndexByte s c = none ↔ c ∉ s := by
  induction s with
  | nil => simp [IndexByte]
  | cons b s ih =>
    by_cases h : b = c
    · simp [IndexByte, h]
    · have h2 : ¬ c = b := fun e => h e.symm
      simp [IndexByte, h, h2, ih]

theorem IndexByte_append (a b : GoString) (c : Byte) (h : c ∉ a) :
    IndexByte (a ++ c :: b) c = some a.length := by
  induction a with
  | nil => simp [IndexByte]
  | cons x a ih =>
    have hx : ¬ x = c := fun e => h (by simp [e])
    have ha : c ∉ a := fun e => h (List.mem_cons_of_mem x e)
    simp [IndexByte, hx, ih ha]

theorem IndexByte_some (s : GoString) (c : Byte) (m : Nat) (h : IndexByte s c = some m) :
    c ∉ s.take m ∧ s = s.take m ++ c :: s.drop (m + 1) := by
  induction s generalizing m with
  | nil => simp [IndexByte] at h
  | cons b s ih =>
    by_cases hb : b = c
    · simp [IndexByte, hb] at h
      subst h
      simp [hb]
    · simp only [IndexByte, hb, if_false, Option.map_eq_some'] at h
      obtain ⟨k, hk, rfl⟩ := h
      obtain ⟨h1, h2⟩ := ih k hk
      have hc : ¬ c = b := fun e => hb e.symm
      refine ⟨by simp [hc, h1], ?_⟩
      simp only [List.take_succ_cons, List.drop_succ_cons, List.cons_append]
      rw [← h2]

theorem SplitN_of_not_mem (s : GoString) (c : Byte) (hs : s ≠ []) (h : c ∉ s) :
    SplitN s c 2 = [s] := by
  rw [SplitN_two s c hs, (IndexByte_eq_none_iff s c).2 h]

theorem SplitN_of_cut (a b : GoString) (c : Byte) (h : c ∉ a) :
    SplitN (a ++ c :: b) c 2 = [a, b] := by
  rw [SplitN_two (a ++ c :: b) c (by simp), IndexByte_append a b c h]
  simp

/-- What `Validate` reports for a field taken alone is what an iteration of the
loop appends to the empty sequence. -/
theorem fieldFailures_of_iteration (f : StructField) (out : ValidationErrors)
    (h : Validate.iteration f [] = Except.ok out) : fieldFailures f = out := by
  have h2 := (Validate.iteration_eq f).2 []
  rw [h] at h2
  simpa using h2.symm

/-- A field without annotation is skipped. -/
theorem fieldFailures_of_no_tag (f : StructField) (ht : f.tag = lit "") :
    fieldFailures f = [] :=
  fieldFailures_of_iteration f [] (by simp [Validate.iteration, ht])

/-- An annotated field that is not exported. -/
theorem fieldFailures_of_unexported (f : StructField) (ht : f.tag ≠ lit "")
    (hx : f.exported = false) :
    fieldFailures f = [⟨some ErrValidateForUnexportedFields⟩] :=
  fieldFailures_of_iteration f _ (by simp [Validate.iteration, ht, hx])

/-- An exported field whose annotation has no ":". -/
theorem fieldFailures_of_no_colon (f : StructField) (ht : f.tag ≠ lit "")
    (hx : f.exported = true) (hc : (58 : Byte) ∉ f.tag) :
    fieldFailures f = [⟨some ErrInvalidValidatorSyntax⟩] :=
  fieldFailures_of_iteration f _ (by
    simp [Validate.iteration, ht, hx, SplitN_of_not_mem f.tag 58 ht hc, orElse])

/-- An exported field whose annotation has nothing after its first ":". -/
theorem fieldFailures_of_empty_blob (f : StructField) (name : GoString)
    (hx : f.exported = true) (hn : (58 : Byte) ∉ name) (ht : f.tag = name ++ [58]) :
    fieldFailures f = [⟨some ErrInvalidValidatorSyntax⟩] :=
  fieldFailures_of_iteration f _ (by
    have hne : ¬ (name ++ [(58 : Byte)] = lit "") := by simp [lit]
    simp [Validate.iteration, ht, hne, hx, SplitN_of_cut name [] 58 hn, orElse, index])

/-- An exported field with a well-formed annotation and a kind that is neither
`Int` nor `String`. -/
theorem fieldFailures_of_unsupported_type (f : StructField) (name blob : GoString)
    (hx : f.exported = true) (hn : (58 : Byte) ∉ name) (hb : blob ≠ [])
    (ht : f.tag = name ++ 58 :: blob)
    (hk : f.value.Kind ≠ Kind.Int ∧ f.value.Kind ≠ Kind.String) :
    fieldFailures f = [⟨some ErrValidateForUnsupportedType⟩] :=
  fieldFailures_of_iteration f _ (by
    have hne : ¬ (name ++ (58 : Byte) :: blob = lit "") := by simp [lit]
    simp [Validate.iteration, ht, hne, hx, SplitN_of_cut name blob 58 hn, orElse, index, hb, hk])

/-- An exported field of kind `Int` or `String` with a well-formed annotation
whose rule name is none of the four rules. -/
theorem fieldFailures_of_unknown_rule (f : StructField) (name blob : GoString)
    (hx : f.exported = true) (hn : (58 : Byte) ∉ name) (hb : blob ≠ [])
    (ht : f.tag = name ++ 58 :: blob)
    (hk : f.value.Kind = Kind.Int ∨ f.value.Kind = Kind.String)
    (h1 : name ≠ lit "in") (h2 : name ≠ lit "max") (h3 : name ≠ lit "min")
    (h4 : name ≠ lit "len") :
    fieldFailures f = [⟨some ErrValidateForUnsupportedValidator⟩] :=
  fieldFailures_of_iteration f _ (by
    have hne : ¬ (name ++ (58 : Byte) :: blob = lit "") := by simp [lit]
    have hk2 : ¬ (f.value.Kind ≠ Kind.Int ∧ f.value.Kind ≠ Kind.String) := by
      rcases hk with hk | hk <;> simp [hk]
    simp [Validate.iteration, ht, hne, hx, SplitN_of_cut name blob 58 hn, orElse, index, hb, hk2,
      h1, h2, h3, h4])

/-- The result of `Validate` on a struct. -/
theorem Validate_of_struct (fields : List StructField) :
    Validate (some ⟨Kind.Struct, fields⟩) =
      Except.ok (if fields.flatMap fieldFailures = [] then Returned.nil
        else Returned.errs (fields.flatMap fieldFailures)) := by
  simp only [Validate, TypeOf, ne_eq, not_true_eq_false, if_false, Validate.loop_eq,
    List.nil_append, ok_bind]
  cases fields.flatMap fieldFailures <;> simp

/-- The result of `Validate` on a struct, at a field that fails. -/
theorem Validate_of_failing_field (pre post : List StructField) (f : StructField)
    (e : ValidationError) (h : fieldFailures f = [e]) :
    Validate (some ⟨Kind.Struct, pre ++ f :: post⟩) =
      Except.ok (Returned.errs
        (pre.flatMap fieldFailures ++ e :: post.flatMap fieldFailures)) := by
  rw [Validate_of_struct]
  simp [List.flatMap_append, List.flatMap_cons, h]

/-- The rule `in` on an exported field of kind `Int` or `String`. -/
theorem fieldFailures_of_in (f : StructField) (blob : GoString) (e : error)
    (hx : f.exported = true) (hb : blob ≠ []) (ht : f.tag = lit "in" ++ 58 :: blob)
    (hk : f.value.Kind = Kind.Int ∨ f.value.Kind = Kind.String)
    (he : ValidateIn f.value (Split blob 44) = Except.ok e) :
    fieldFailures f = errorFailures e :=
  fieldFailures_of_iteration f _ (by
    have hne : ¬ (lit "in" ++ (58 : Byte) :: blob = lit "") := by simp [lit]
    have hk2 : ¬ (f.value.Kind ≠ Kind.Int ∧ f.value.Kind ≠ Kind.String) := by
      rcases hk with hk | hk <;> simp [hk]
    simp [Validate.iteration, ht, hne, hx, SplitN_of_cut (lit "in") blob 58 (by decide), orElse,
      index, hb, hk2, he]
    cases e <;> simp [errorFailures])

/-- The rules `max` and `min` on an exported field of kind `Int` or `String`. -/
theorem fieldFailures_of_max (f : StructField) (blob : GoString) (e : error)
    (hx : f.exported = true) (hb : blob ≠ []) (ht : f.tag = lit "max" ++ 58 :: blob)
    (hk : f.value.Kind = Kind.Int ∨ f.value.Kind = Kind.String)
    (he : ValidateMaxMin f.value (Split blob 44) Max = Except.ok e) :
    fieldFailures f = errorFailures e :=
  fieldFailures_of_iteration f _ (by
    have hne : ¬ (lit "max" ++ (58 : Byte) :: blob = lit "") := by simp [lit]
    have hk2 : ¬ (f.value.Kind ≠ Kind.Int ∧ f.value.Kind ≠ Kind.String) := by
      rcases hk with hk | hk <;> simp [hk]
    have h1 : ¬ (lit "max" = lit "in") := by decide
    simp [Validate.iteration, ht, hne, hx, SplitN_of_cut (lit "max") blob 58 (by decide), orElse,
      index, hb, hk2, he, h1]
    cases e <;> simp [errorFailures])

theorem fieldFailures_of_min (f : StructField) (blob : GoString) (e : error)
    (hx : f.exported = true) (hb : blob ≠ []) (ht : f.tag = lit "min" ++ 58 :: blob)
    (hk : f.value.Kind = Kind.Int ∨ f.value.Kind = Kind.String)
    (he : ValidateMaxMin f.value (Split blob 44) Min = Except.ok e) :
    fieldFailures f = errorFailures e :=
  fieldFailures_of_iteration f _ (by
    have hne : ¬ (lit "min" ++ (58 : Byte) :: blob = lit "") := by simp [lit]
    have hk2 : ¬ (f.value.Kind ≠ Kind.Int ∧ f.value.Kind ≠ Kind.String) := by
      rcases hk with hk | hk <;> simp [hk]
    have h1 : ¬ (lit "min" = lit "in") := by decide
    have h2 : ¬ (lit "min" = lit "max") := by decide
    simp [Validate.iteration, ht, hne, hx, SplitN_of_cut (lit "min") blob 58 (by decide), orElse,
      index, hb, hk2, he, h1, h2]
    cases e <;> simp [errorFailures])

/-- The rule `len` on an exported field of kind `Int` or `String`. -/
theorem fieldFailures_of_len (f : StructField) (blob : GoString) (e : error)
    (hx : f.exported = true) (hb : blob ≠ []) (ht : f.tag = lit "len" ++ 58 :: blob)
    (hk : f.value.Kind = Kind.Int ∨ f.value.Kind = Kind.String)
    (he : ValidateLen f.value (Split blob 44) = Except.ok e) :
    fieldFailures f = errorFailures e :=
  fieldFailures_of_iteration f _ (by
    have hne : ¬ (lit "len" ++ (58 : Byte) :: blob = lit "") := by simp [lit]
    have hk2 : ¬ (f.value.Kind ≠ Kind.Int ∧ f.value.Kind ≠ Kind.String) := by
      rcases hk with hk | hk <;> simp [hk]
    have h1 : ¬ (lit "len" = lit "in") := by decide
    have h2 : ¬ (lit "len" = lit "max") := by decide
    have h3 : ¬ (lit "len" = lit "min") := by decide
    simp [Validate.iteration, ht, hne, hx, SplitN_of_cut (lit "len") blob 58 (by decide), orElse,
      index, hb, hk2, he, h1, h2, h3]
    cases e <;> simp [errorFailures])

/-- An annotation with a ":" is cut at the first one. -/
theorem tag_cut (tag : GoString) (h : (58 : Byte) ∈ tag) :
    ∃ name blob : GoString, (58 : Byte) ∉ name ∧ tag = name ++ 58 :: blob := by
  cases hi : IndexByte tag 58 with
  | none => exact absurd h ((IndexByte_eq_none_iff tag 58).1 hi)
  | some m =>
    obtain ⟨h1, h2⟩ := IndexByte_some tag 58 m hi
    exact ⟨tag.take m, tag.drop (m + 1), h1, h2⟩

/-- Every failure that `Validate` records holds an error. -/
theorem fieldFailures_hold_errors (f : StructField) :
    ∀ err ∈ fieldFailures f, err.Err ≠ none := by
  have hmatch : ∀ e : error, ∀ err ∈ errorFailures e, err.Err ≠ none := by
    intro e err herr
    cases e with
    | none => simp [errorFailures] at herr
    | some x =>
      simp [errorFailures] at herr
      simp [herr]
  by_cases ht : f.tag = lit ""
  · simp [fieldFailures_of_no_tag f ht]
  by_cases hx : f.exported = true
  swap
  · simp [fieldFailures_of_unexported f ht (by simpa using hx)]
  by_cases hc : (58 : Byte) ∈ f.tag
  swap
  · simp [fieldFailures_of_no_colon f ht hx hc]
  obtain ⟨name, blob, hn, hcut⟩ := tag_cut f.tag hc
  by_cases hb : blob = []
  · rw [hb] at hcut
    simp [fieldFailures_of_empty_blob f name hx hn hcut]
  by_cases hk : f.value.Kind = Kind.Int ∨ f.value.Kind = Kind.String
  swap
  · rw [fieldFailures_of_unsupported_type f name blob hx hn hb hcut
      ⟨fun h => hk (Or.inl h), fun h => hk (Or.inr h)⟩]
    simp
  obtain ⟨tok, rest, hsplit⟩ := Split_eq_cons blob 44
  by_cases h1 : name = lit "in"
  · obtain ⟨e, he⟩ := ValidateIn_total f.value (Split blob 44)
    rw [fieldFailures_of_in f blob e hx hb (h1 ▸ hcut) hk he]
    exact hmatch e
  by_cases h2 : name = lit "max"
  · obtain ⟨e, he⟩ := ValidateMaxMin_total f.value (Split blob 44) Max
    rw [fieldFailures_of_max f blob e hx hb (h2 ▸ hcut) hk he]
    exact hmatch e
  by_cases h3 : name = lit "min"
  · obtain ⟨e, he⟩ := ValidateMaxMin_total f.value (Split blob 44) Min
    rw [fieldFailures_of_min f blob e hx hb (h3 ▸ hcut) hk he]
    exact hmatch e
  by_cases h4 : name = lit "len"
  · obtain ⟨e, he⟩ : ∃ e, ValidateLen f.value (Split blob 44) = Except.ok e := by
      rw [hsplit]
      exact ValidateLen_total f.value tok rest
    rw [fieldFailures_of_len f blob e hx hb (h4 ▸ hcut) hk he]
    exact hmatch e
  rw [fieldFailures_of_unknown_rule f name blob hx hn hb hcut hk h1 h2 h3 h4]
  simp

/-- Every failure in what `Validate` returns for a struct holds an error. -/
theorem Validate_failures_hold_errors (fields : List StructField) (v : ValidationErrors)
    (h : Validate (some ⟨Kind.Struct, fields⟩) = Except.ok (Returned.errs v)) :
    ∀ err ∈ v, err.Err ≠ none := by
  rw [Validate_of_struct] at h
  have hv : v = fields.flatMap fieldFailures := by
    split at h
    · simp at h
    · simpa using h.symm
  intro err herr
  rw [hv, List.mem_flatMap] at herr
  obtain ⟨f, _, hf⟩ := herr
  exact fieldFailures_hold_errors f err hf

/-! ## Lemmas on `ValidationErrors.Error` and on the tokens -/

theorem Join_cons (s : GoString) (rest : List GoString) (sep : GoString) (h : rest ≠ []) :
    Join (s :: rest) sep = s ++ sep ++ Join rest sep := by
  cases rest with
  | nil => exact absurd rfl h
  | cons t rest => rfl

/-- `TrimSuffix` removes a suffix that is there. -/
theorem TrimSuffix_append (s suffix : GoString) : TrimSuffix (s ++ suffix) suffix = s := by
  simp [TrimSuffix, HasSuffix]

/-- The loop of `ValidationErrors.Error` appends each message followed by the
delimiter. -/
theorem ValidationErrors.Error.loop_appends (Quote : GoString → GoString) (v : ValidationErrors)
    (h : ∀ err ∈ v, err.Err ≠ none) (acc : GoString) :
    ValidationErrors.Error.loop Quote v acc =
      Except.ok (acc ++ (v.map (fun err => err.message Quote ++ lit " >>= ")).flatten) := by
  induction v generalizing acc with
  | nil => simp [ValidationErrors.Error.loop]
  | cons err v ih =>
    have hv : ∀ e ∈ v, e.Err ≠ none := fun e he => h e (List.mem_cons_of_mem err he)
    have he := h err (List.mem_cons_self err v)
    cases hx : err.Err with
    | none => exact absurd hx he
    | some x =>
      simp [ValidationErrors.Error.loop, hx, ih hv, ValidationError.message]

theorem flatten_map_append_sep (msgs : List GoString) (sep : GoString) (h : msgs ≠ []) :
    (msgs.map (fun m => m ++ sep)).flatten = Join msgs sep ++ sep := by
  induction msgs with
  | nil => exact absurd rfl h
  | cons m rest ih =>
    cases rest with
    | nil => simp [Join]
    | cons t rest =>
      rw [Join_cons m (t :: rest) sep (by simp), List.map_cons, List.flatten_cons,
        ih (by simp)]
      simp

/-- The result of `ValidationErrors.Error` on failures that all hold an
error. -/
theorem ValidationErrors.Error_eq (Quote : GoString → GoString) (v : ValidationErrors)
    (h : ∀ err ∈ v, err.Err ≠ none) :
    ValidationErrors.Error Quote v =
      Except.ok (Join (v.map (fun err => err.message Quote)) (lit " >>= ")) := by
  simp only [ValidationErrors.Error, ValidationErrors.Error.loop_appends Quote v h, ok_bind]
  cases v with
  | nil =>
    simp [Join]
    decide
  | cons err v =>
    have h2 := flatten_map_append_sep ((err :: v).map (fun e => e.message Quote)) (lit " >>= ")
      (by simp)
    simp only [List.map_map] at h2
    have h3 : ((fun m => m ++ lit " >>= ") ∘ fun (e : ValidationError) => e.message Quote) =
        fun e => e.message Quote ++ lit " >>= " := rfl
    rw [h3] at h2
    rw [h2]
    have h0 : lit "" = ([] : GoString) := rfl
    simp [h0, TrimSuffix_append]

/-- `strings.Split` cuts at every separator. -/
theorem Split_eq_loop (s : GoString) (sep : Byte) :
    Split s sep = genSplit.loop sep (s.count sep) s := by
  have h : ¬ (s.length + 1 < s.count sep + 1) := by
    have := List.count_le_length sep s
    omega
  simp [Split, genSplit, h]

/-- Joining the pieces that `genSplit` returns with the separator gives the
string back. -/
theorem genSplit.loop_join (sep : Byte) (k : Nat) (s : GoString) :
    Join (genSplit.loop sep k s) [sep] = s := by
  induction k generalizing s with
  | zero => simp [genSplit.loop, Join]
  | succ k ih =>
    unfold genSplit.loop
    cases hi : IndexByte s sep with
    | none => simp [Join]
    | some m =>
      obtain ⟨_, h2⟩ := IndexByte_some s sep m hi
      simp only
      rw [Join_cons _ _ _ (genSplit.loop_ne_nil sep k _), ih]
      simpa using h2.symm

/-- With enough cuts allowed, no piece that `genSplit` returns contains the
separator. -/
theorem genSplit.loop_not_mem (sep : Byte) (k : Nat) (s : GoString) (h : s.count sep ≤ k) :
    ∀ tok ∈ genSplit.loop sep k s, sep ∉ tok := by
  induction k generalizing s with
  | zero =>
    intro tok htok
    simp only [genSplit.loop, List.mem_singleton] at htok
    rw [htok]
    exact List.count_eq_zero.1 (Nat.le_zero.1 h)
  | succ k ih =>
    intro tok htok
    unfold genSplit.loop at htok
    cases hi : IndexByte s sep with
    | none =>
      rw [hi] at htok
      simp only [List.mem_singleton] at htok
      rw [htok]
      exact (IndexByte_eq_none_iff s sep).1 hi
    | some m =>
      rw [hi] at htok
      obtain ⟨h1, h2⟩ := IndexByte_some s sep m hi
      simp only [List.mem_cons] at htok
      rcases htok with htok | htok
      · rw [htok]
        exact h1
      · refine ih (s.drop (m + 1)) ?_ tok htok
        have hc : s.count sep = (s.take m).count sep + ((s.drop (m + 1)).count sep + 1) := by
          conv_lhs => rw [h2]
          simp [List.count_append]
        omega

/-- A token that starts with a space does not parse as an integer. -/
theorem Atoi_of_leading_space (s : GoString) : (Atoi (32 :: s)).2 ≠ none := by
  by_cases h : (32 :: s).length < 19
  · have h2 : s.length + 1 < 19 := by simpa using h
    simp [Atoi, h2, Atoi.fastLoop]
  · have h2 : ¬ (s.length + 1 < 19) := by simpa using h
    simp [Atoi, h2, ParseInt, ParseUint, ParseUint.loop]

/-- The first piece that `strings.Split` returns for a string that does not
start with the separator starts with the first byte of the string. -/
theorem Split_of_cons (c : Byte) (s : GoString) (sep : Byte) (h : c ≠ sep) :
    ∃ t rest, Split (c :: s) sep = (c :: t) :: rest := by
  rw [Split_eq_loop]
  cases (c :: s).count sep with
  | zero => exact ⟨s, [], rfl⟩
  | succ k =>
    unfold genSplit.loop
    cases hi : IndexByte s sep with
    | none => exact ⟨s, [], by simp [IndexByte, h, hi]⟩
    | some m => exact ⟨s.take m, _, by simp [IndexByte, h, hi]; rfl⟩

/-- The rules `max` and `min` reject every argument blob that starts with a
space: its first token does not parse, or it has several tokens. -/
theorem ValidateMaxMin_of_leading_space (val : Value) (s : GoString) (t : Int) :
    ValidateMaxMin val (Split (32 :: s) 44) t = Except.ok (some ErrInvalidValidatorSyntax) := by
  obtain ⟨tok, rest, h⟩ := Split_of_cons 32 s 44 (by decide)
  rw [h]
  cases rest with
  | nil => simp [ValidateMaxMin, index, Atoi_of_leading_space tok]
  | cons r rest => simp [ValidateMaxMin]

/-! ## Lemmas on the bytes that `Atoi` accepts -/

theorem sub_zero_gt_nine_iff (ch : Byte) : (ch - 48 > 9) ↔ ¬ (48 ≤ ch ∧ ch ≤ 57) := by
  obtain ⟨n, hn⟩ := ch
  simp only [gt_iff_lt, Fin.lt_def, Fin.le_def, Fin.sub_def]
  simp
  omega

theorem Atoi.fastLoop_of_not_digit (s : GoString) (n : Int) (c : Byte) (hc : c ∈ s)
    (hd : ¬ (48 ≤ c ∧ c ≤ 57)) : Atoi.fastLoop s n = none := by
  induction s generalizing n with
  | nil => simp at hc
  | cons ch s ih =>
    by_cases h9 : ch - 48 > 9
    · simp [Atoi.fastLoop, h9]
    · have hch : c ≠ ch := by
        intro e
        rw [e] at hd
        exact h9 ((sub_zero_gt_nine_iff ch).2 hd)
      have hcs : c ∈ s := by
        rcases List.mem_cons.1 hc with h | h
        · exact absurd h hch
        · exact h
      simp only [Atoi.fastLoop, h9, if_false]
      exact ih _ hcs

theorem ParseUint.loop_of_not_digit (s : GoString) (n : Nat) (c : Byte) (hc : c ∈ s)
    (hd : ¬ (48 ≤ c ∧ c ≤ 57)) : (ParseUint.loop s n).2 ≠ none := by
  induction s generalizing n with
  | nil => simp at hc
  | cons ch s ih =>
    unfold ParseUint.loop
    by_cases h : 48 ≤ ch ∧ ch ≤ 57
    · have hch : c ≠ ch := by
        intro e
        rw [e] at hd
        exact hd h
      have hcs : c ∈ s := by
        rcases List.mem_cons.1 hc with h2 | h2
        · exact absurd h2 hch
        · exact h2
      simp only [h, and_self, if_true]
      split
      · simp
      · split
        · simp
        · exact ih _ hcs
    · simp [h]

theorem ParseUint.loop_of_range (s : GoString) (n : Nat)
    (h : (ParseUint.loop s n).2 = some NumErrKind.ErrRange) :
    (ParseUint.loop s n).1 = 2 ^ 64 - 1 := by
  induction s generalizing n with
  | nil => simp [ParseUint.loop] at h
  | cons ch s ih =>
    unfold ParseUint.loop at h ⊢
    by_cases hd : 48 ≤ ch ∧ ch ≤ 57
    · simp only [hd, and_self, if_true] at h ⊢
      split
      · rfl
      · rename_i h1
        simp only [h1, if_false] at h
        split
        · rfl
        · rename_i h2
          simp only [h2, if_false] at h
          exact ih _ h
    · simp [hd] at h

theorem ParseInt_value_of_error (s : GoString) (h : (ParseInt s).2 ≠ none) :
    (ParseInt s).1 = 0 ∨ (ParseInt s).1 = 2 ^ 63 - 1 ∨ (ParseInt s).1 = -(2 ^ 63) := by
  by_cases h0 : s = []
  · simp [ParseInt, h0]
  by_cases h1 : (ParseUint (if s.head? = some 43 then s.tail
      else if s.head? = some 45 then s.tail else s)).2 = some NumErrKind.ErrSyntax
  · simp [ParseInt, h0, h1]
  by_cases h2 : decide (s.head? = some 45) = false ∧
      (ParseUint (if s.head? = some 43 then s.tail
        else if s.head? = some 45 then s.tail else s)).1 ≥ 2 ^ (intSize - 1)
  · right; left
    simp only [ParseInt, h0, h1, h2, if_false, if_true, and_self]
    norm_num [intSize]
  by_cases h3 : decide (s.head? = some 45) = true ∧
      (ParseUint (if s.head? = some 43 then s.tail
        else if s.head? = some 45 then s.tail else s)).1 > 2 ^ (intSize - 1)
  · right; right
    simp only [ParseInt, h0, h1, h2, h3, if_false, if_true, and_self]
    norm_num [intSize]
  · exfalso
    apply h
    simp only [ParseInt, h0, h1, h2, h3, if_false]

/-- When `strconv.Atoi` returns an error, the integer it returns with it is 0
or one of the two bounds of `int`. -/
theorem Atoi_value_of_error (tok : GoString) (h : (Atoi tok).2 ≠ none) :
    (Atoi tok).1 = 0 ∨ (Atoi tok).1 = 2 ^ 63 - 1 ∨ (Atoi tok).1 = -(2 ^ 63) := by
  by_cases hlen : 0 < tok.length ∧ tok.length < 19
  · by_cases hs1 : (if tok.head? = some 45 ∨ tok.head? = some 43 then tok.tail
        else tok).length < 1
    · left
      simp only [Atoi, hlen, hs1, and_self, if_true]
    · cases hf : Atoi.fastLoop (if tok.head? = some 45 ∨ tok.head? = some 43 then tok.tail
          else tok) 0 with
      | none =>
        left
        simp only [Atoi, hlen, hs1, hf, and_self, if_true, if_false]
      | some n =>
        exfalso
        apply h
        simp only [Atoi, hlen, hs1, hf, and_self, if_true, if_false]
  · have hA : Atoi tok = ((ParseInt tok).1,
        (ParseInt tok).2.map (fun k => ⟨lit "Atoi", tok, k⟩)) := by
      simp only [Atoi, hlen, if_false]
    rw [hA] at h ⊢
    apply ParseInt_value_of_error
    intro hn
    apply h
    simp [hn]

theorem isIntByte_eq_false (c : Byte) (h : isIntByte c = false) :
    ¬ (48 ≤ c ∧ c ≤ 57) ∧ c ≠ 43 ∧ c ≠ 45 := by
  simp only [isIntByte, decide_eq_false_iff_not, not_or] at h
  exact h

theorem ParseInt_of_not_int_byte (s : GoString) (c : Byte) (hc : c ∈ s)
    (hb : isIntByte c = false) : (ParseInt s).2 ≠ none := by
  obtain ⟨hd, h43, h45⟩ := isIntByte_eq_false c hb
  have h0 : s ≠ [] := by
    intro e
    rw [e] at hc
    simp at hc
  have hmem : c ∈ (if s.head? = some 43 then s.tail
      else if s.head? = some 45 then s.tail else s) := by
    cases s with
    | nil => simp at hc
    | cons a t =>
      have hct : c ≠ a → c ∈ t := fun hne => by
        rcases List.mem_cons.1 hc with h | h
        · exact absurd h hne
        · exact h
      by_cases ha : a = 43
      · simpa [ha] using hct (ha ▸ h43)
      · by_cases ha2 : a = 45
        · simpa [ha, ha2] using hct (ha2 ▸ h45)
        · simpa [ha, ha2] using hc
  have hne : (if s.head? = some 43 then s.tail
      else if s.head? = some 45 then s.tail else s) ≠ [] := by
    intro e
    rw [e] at hmem
    simp at hmem
  have hU : ParseUint (if s.head? = some 43 then s.tail
      else if s.head? = some 45 then s.tail else s) =
      ParseUint.loop (if s.head? = some 43 then s.tail
        else if s.head? = some 45 then s.tail else s) 0 := by
    simp only [ParseUint, hne, if_false]
  have hloop := ParseUint.loop_of_not_digit _ 0 c hmem hd
  rw [← hU] at hloop
  by_cases h1 : (ParseUint (if s.head? = some 43 then s.tail
      else if s.head? = some 45 then s.tail else s)).2 = some NumErrKind.ErrSyntax
  · simp [ParseInt, h0, h1]
  have hr : (ParseUint (if s.head? = some 43 then s.tail
      else if s.head? = some 45 then s.tail else s)).2 = some NumErrKind.ErrRange := by
    cases hx : (ParseUint (if s.head? = some 43 then s.tail
        else if s.head? = some 45 then s.tail else s)).2 with
    | none => exact absurd hx hloop
    | some k =>
      cases k with
      | ErrSyntax => exact absurd hx h1
      | ErrRange => rfl
  have hv : (ParseUint (if s.head? = some 43 then s.tail
      else if s.head? = some 45 then s.tail else s)).1 = 2 ^ 64 - 1 := by
    rw [hU] at hr ⊢
    exact ParseUint.loop_of_range _ 0 hr
  by_cases hneg : decide (s.head? = some 45) = true
  · simp [ParseInt, h0, h1, hneg, hv, intSize]
  · have hneg2 : decide (s.head? = some 45) = false := by simpa using hneg
    simp [ParseInt, h0, h1, hneg2, hv, intSize]

/-- A token that holds a byte other than a decimal digit or a sign, a space
or any other white space for one, does not parse as an integer. -/
theorem Atoi_of_not_int_byte (tok : GoString) (c : Byte) (hc : c ∈ tok)
    (hb : isIntByte c = false) : (Atoi tok).2 ≠ none := by
  obtain ⟨hd, h43, h45⟩ := isIntByte_eq_false c hb
  by_cases hlen : 0 < tok.length ∧ tok.length < 19
  · have hmem : c ∈ (if tok.head? = some 45 ∨ tok.head? = some 43 then tok.tail else tok) := by
      cases tok with
      | nil => simp at hc
      | cons a t =>
        have hct : c ≠ a → c ∈ t := fun hne => by
          rcases List.mem_cons.1 hc with h | h
          · exact absurd h hne
          · exact h
        by_cases ha : a = 45
        · simpa [ha] using hct (ha ▸ h45)
        · by_cases ha2 : a = 43
          · simpa [ha, ha2] using hct (ha2 ▸ h43)
          · simpa [ha, ha2] using hc
    by_cases hs1 : (if tok.head? = some 45 ∨ tok.head? = some 43 then tok.tail
        else tok).length < 1
    · simp only [Atoi, hlen, hs1, and_self, if_true]
      simp
    · have hf := Atoi.fastLoop_of_not_digit _ 0 c hmem hd
      simp only [Atoi, hlen, hs1, hf, and_self, if_true, if_false]
      simp
  · have hA : Atoi tok = ((ParseInt tok).1,
        (ParseInt tok).2.map (fun k => ⟨lit "Atoi", tok, k⟩)) := by
      simp only [Atoi, hlen, if_false]
    rw [hA]
    have := ParseInt_of_not_int_byte tok c hc hb
    simpa using this

/-- With an argument blob that holds a byte other than a decimal digit or a
sign, `ValidateMaxMin` returns `ErrInvalidValidatorSyntax`: the blob has
several tokens, or its one token, the blob itself, does not parse. -/
theorem ValidateMaxMin_of_not_int_byte (val : Value) (blob : GoString) (t : Int) (c : Byte)
    (hc : c ∈ blob) (hb : isIntByte c = false) :
    ValidateMaxMin val (Split blob 44) t = Except.ok (some ErrInvalidValidatorSyntax) := by
  obtain ⟨tok, rest, h⟩ := Split_eq_cons blob 44
  have hj : Join (Split blob 44) [44] = blob := by
    rw [Split_eq_loop]
    exact genSplit.loop_join 44 _ blob
  rw [h] at hj ⊢
  cases rest with
  | nil =>
    have htok : tok = blob := by simpa [Join] using hj
    have he := Atoi_of_not_int_byte tok c (htok ▸ hc) hb
    simp [ValidateMaxMin, index, he]
  | cons r rest => simp [ValidateMaxMin]

/-- With a first token that holds a byte other than a decimal digit or a sign,
`ValidateLen` returns `ErrInvalidValidatorSyntax`. -/
theorem ValidateLen_of_not_int_byte (val : Value) (tok : GoString) (rest : List GoString)
    (c : Byte) (hc : c ∈ tok) (hb : isIntByte c = false) :
    ValidateLen val (tok :: rest) = Except.ok (some ErrInvalidValidatorSyntax) := by
  have he := Atoi_of_not_int_byte tok c hc hb
  simp [ValidateLen, index, he]

/-! ## The claims -/

/-- C1: for every struct input, `Validate` returns; what it returns is nil when
no field produces a failure, and otherwise the non-empty `ValidationErrors`
made of the failures of the fields, field after field in declaration order
(no field after a failing one is skipped). Each field contributes at most one
failure, namely the one `Validate` reports for that field taken alone, and a
field without annotation contributes none. -/
theorem Validate_collects_every_failure (fields : List StructField) :
    Validate (some ⟨Kind.Struct, fields⟩) =
      Except.ok (if fields.flatMap fieldFailures = [] then Returned.nil
        else Returned.errs (fields.flatMap fieldFailures)) ∧
    (∀ f : StructField, (fieldFailures f).length ≤ 1) ∧
    (∀ f : StructField, f.tag = lit "" → fieldFailures f = []) := by
  refine ⟨?_, fun f => (Validate.iteration_eq f).1, fun f hf => ?_⟩
  · simp only [Validate, TypeOf, ne_eq, not_true_eq_false, if_false, Validate.loop_eq,
      List.nil_append, ok_bind]
    cases fields.flatMap fieldFailures <;> simp
  · have h := (Validate.iteration_eq f).2 []
    simp [Validate.iteration, hf] at h
    exact h

/-- C2: on the nil interface `Validate` panics (`reflect.TypeOf(nil)` is nil
and `Kind` is called on it) instead of returning `ErrNotStruct`; on every
non-nil input whose kind is not `Struct` it returns exactly `ErrNotStruct`,
whatever the input holds. -/
theorem Validate_nil_panics :
    Validate none = Except.error Fault.nilDereference ∧
    ∀ d : Dynamic, d.kind ≠ Kind.Struct →
      Validate (some d) = Except.ok (Returned.err ErrNotStruct) :=
  ⟨rfl, Validate_of_not_struct⟩

/-- C3: for a value of kind `Int` holding `v` and an argument list of exactly
one token that parses as the integer `b`, `ValidateMaxMin` in the `Max`
direction returns the error with message "Integer v is greater than b" if
`v > b` and nil otherwise, and in the `Min` direction the error with message
"Integer v is less than b" if `v < b` and nil otherwise; so `v = b` never
fails. -/
theorem ValidateMaxMin_integer_bound (val : Value) (v : Int) (tok : GoString) (b : Int)
    (hk : val.Kind = Kind.Int) (hv : val.Int = Except.ok v) (hb : Atoi tok = (b, none)) :
    ValidateMaxMin val [tok] Max =
        Except.ok (if v > b then some (errors.New
          (lit "Integer " ++ FormatInt v ++ lit " is greater than " ++ Itoa b)) else none) ∧
    ValidateMaxMin val [tok] Min =
        Except.ok (if v < b then some (errors.New
          (lit "Integer " ++ FormatInt v ++ lit " is less than " ++ Itoa b)) else none) ∧
    (v = b → ValidateMaxMin val [tok] Max = Except.ok none ∧
      ValidateMaxMin val [tok] Min = Except.ok none) := by
  obtain ⟨h1, h2⟩ := ValidateMaxMin_of_int val v tok b hk hv hb
  refine ⟨h1, h2, fun hvb => ?_⟩
  rw [h1, h2, hvb]
  simp

theorem ValidateMaxMin_integer_bound_witness :
    (intValue 42).Kind = Kind.Int ∧ (intValue 42).Int = Except.ok 42 ∧
    Atoi (lit "10") = (10, none) ∧
    ValidateMaxMin (intValue 42) [lit "10"] Max =
      Except.ok (some (errors.New (lit "Integer 42 is greater than 10"))) ∧
    ValidateMaxMin (intValue 42) [lit "10"] Min = Except.ok none :=
  ⟨by decide, by decide, by decide,
    (ValidateMaxMin_integer_bound (intValue 42) 42 (lit "10") 10
      (by decide) (by decide) (by decide)).1.trans (by decide),
    (ValidateMaxMin_integer_bound (intValue 42) 42 (lit "10") 10
      (by decide) (by decide) (by decide)).2.1.trans (by decide)⟩

/-- C4: for a value of kind `String` holding an ASCII text `t` and an argument
list of exactly one token that parses as the integer `b`, `ValidateMaxMin`
fails in the `Max` direction if and only if the number of characters of `t` is
greater than `b` and succeeds otherwise, and fails in the `Min` direction if
and only if it is less than `b` and succeeds otherwise; a length equal to `b`
succeeds in both directions. -/
theorem ValidateMaxMin_ascii_text_bound (t : String) (val : Value) (tok : GoString) (b : Int)
    (ht : IsASCII t) (hk : val.Kind = Kind.String) (hs : val.String = Except.ok (lit t))
    (hb : Atoi tok = (b, none)) :
    (failed (ValidateMaxMin val [tok] Max) = true ↔ (t.length : Int) > b) ∧
    (succeeded (ValidateMaxMin val [tok] Max) = true ↔ (t.length : Int) ≤ b) ∧
    (failed (ValidateMaxMin val [tok] Min) = true ↔ (t.length : Int) < b) ∧
    (succeeded (ValidateMaxMin val [tok] Min) = true ↔ b ≤ (t.length : Int)) := by
  obtain ⟨h1, h2⟩ := ValidateMaxMin_of_string val (lit t) tok b hk hs hb
  rw [h1, h2, length_lit_of_isASCII t ht]
  refine ⟨?_, ?_, ?_, ?_⟩ <;> split <;> simp_all

theorem ValidateMaxMin_ascii_text_bound_witness :
    IsASCII "abcde" ∧ (stringValue (lit "abcde")).Kind = Kind.String ∧
    (stringValue (lit "abcde")).String = Except.ok (lit "abcde") ∧
    Atoi (lit "5") = (5, none) ∧
    succeeded (ValidateMaxMin (stringValue (lit "abcde")) [lit "5"] Max) = true ∧
    succeeded (ValidateMaxMin (stringValue (lit "abcde")) [lit "5"] Min) = true :=
  have ha : IsASCII "abcde" := by unfold IsASCII; decide
  have h := ValidateMaxMin_ascii_text_bound "abcde" (stringValue (lit "abcde")) (lit "5") 5 ha
    (by decide) (by decide) (by decide)
  ⟨ha, by decide, by decide, by decide, h.2.1.2 (by decide), h.2.2.2.2 (by decide)⟩

/-- C5, as stated, fails: the text "é" has one character, yet `max:1` and
`len:1` both fail on it, because its two bytes are counted. -/
theorem length_is_not_character_count :
    "é".length = 1 ∧ Atoi (lit "1") = (1, none) ∧
    failed (ValidateMaxMin (stringValue (lit "é")) [lit "1"] Max) = true ∧
    failed (ValidateLen (stringValue (lit "é")) [lit "1"]) = true := by
  decide

/-- C5, amended: for every text `t`, the length that max, min and len compare
against the bound is the number of bytes of `t` in UTF-8; it is the number of
characters when `t` is ASCII. -/
theorem length_is_byte_count (t : String) (val : Value) (tok : GoString)
    (rest : List GoString) (b : Int) (hk : val.Kind = Kind.String)
    (hs : val.String = Except.ok (lit t)) (hb : Atoi tok = (b, none)) :
    (failed (ValidateMaxMin val [tok] Max) = true ↔ (t.utf8ByteSize : Int) > b) ∧
    (failed (ValidateMaxMin val [tok] Min) = true ↔ (t.utf8ByteSize : Int) < b) ∧
    (failed (ValidateLen val (tok :: rest)) = true ↔ (t.utf8ByteSize : Int) ≠ b) ∧
    (IsASCII t → t.utf8ByteSize = t.length) := by
  obtain ⟨h1, h2⟩ := ValidateMaxMin_of_string val (lit t) tok b hk hs hb
  have h3 := ValidateLen_of_string val (lit t) tok rest b hk hs hb
  rw [h1, h2, h3, length_lit]
  refine ⟨?_, ?_, ?_, ?_⟩
  · split <;> simp_all
  · split <;> simp_all
  · split <;> simp_all
  · intro ht
    rw [← length_lit, length_lit_of_isASCII t ht]

theorem length_is_byte_count_witness :
    (stringValue (lit "é")).Kind = Kind.String ∧
    (stringValue (lit "é")).String = Except.ok (lit "é") ∧
    Atoi (lit "2") = (2, none) ∧ "é".utf8ByteSize = 2 ∧
    (failed (ValidateLen (stringValue (lit "é")) [lit "2"]) = true ↔
      ("é".utf8ByteSize : Int) ≠ 2) :=
  ⟨by decide, by decide, by decide, by decide,
    (length_is_byte_count "é" (stringValue (lit "é")) (lit "2") [] 2
      (by decide) (by decide) (by decide)).2.2.1⟩

/-- C6: the code at the failing input. The token "abc" does not parse as an
integer, yet `ValidateIn` succeeds on the integer value 0 with the token list
["abc"]: the integer 0 that `Atoi` returns with its error is compared with the
value. -/
theorem ValidateIn_unparsed_token_matches_zero :
    (Atoi (lit "abc")).2 ≠ none ∧
    ValidateIn (intValue 0) [lit "abc"] = Except.ok none := by
  decide

/-- C7: for a value of kind `String` holding `s` and every token list,
`ValidateIn` succeeds if and only if `s` is equal to one of the tokens, and
otherwise returns the error with message "value is not found". -/
theorem ValidateIn_text_membership (val : Value) (s : GoString) (tokens : List GoString)
    (hk : val.Kind = Kind.String) (hs : val.String = Except.ok s) :
    (succeeded (ValidateIn val tokens) = true ↔ s ∈ tokens) ∧
    (s ∉ tokens →
      ValidateIn val tokens = Except.ok (some (errors.New (lit "value is not found")))) := by
  rw [ValidateIn_of_string val s hk hs tokens]
  by_cases h : s ∈ tokens <;> simp [h]

theorem ValidateIn_text_membership_witness :
    (stringValue (lit "bar")).Kind = Kind.String ∧
    (stringValue (lit "bar")).String = Except.ok (lit "bar") ∧
    succeeded (ValidateIn (stringValue (lit "bar")) [lit "foo", lit "bar"]) = true ∧
    succeeded (ValidateIn (stringValue (lit "bar")) [lit "foo", lit " bar", lit "Bar"]) = false :=
  ⟨by decide, by decide,
    (ValidateIn_text_membership (stringValue (lit "bar")) (lit "bar") [lit "foo", lit "bar"]
      (by decide) (by decide)).1.2 (by decide),
    by
      rw [(ValidateIn_text_membership (stringValue (lit "bar")) (lit "bar")
        [lit "foo", lit " bar", lit "Bar"] (by decide) (by decide)).2 (by decide)]
      rfl⟩

/-- C8: for a value of kind `String` holding an ASCII text `t` and a token list
whose first token parses as the integer `n`, `ValidateLen` succeeds if and only
if the number of characters of `t` is `n`, and fails otherwise; the tokens
after the first have no influence on the result. -/
theorem ValidateLen_ascii_text_exact (t : String) (val : Value) (tok : GoString)
    (rest : List GoString) (n : Int) (ht : IsASCII t) (hk : val.Kind = Kind.String)
    (hs : val.String = Except.ok (lit t)) (hn : Atoi tok = (n, none)) :
    (succeeded (ValidateLen val (tok :: rest)) = true ↔ (t.length : Int) = n) ∧
    (failed (ValidateLen val (tok :: rest)) = true ↔ (t.length : Int) ≠ n) ∧
    ValidateLen val (tok :: rest) = ValidateLen val [tok] := by
  rw [ValidateLen_of_string val (lit t) tok rest n hk hs hn,
    ValidateLen_of_string val (lit t) tok [] n hk hs hn, length_lit_of_isASCII t ht]
  refine ⟨?_, ?_, rfl⟩ <;> split <;> simp_all

theorem ValidateLen_ascii_text_exact_witness :
    IsASCII "abc" ∧ (stringValue (lit "abc")).Kind = Kind.String ∧
    (stringValue (lit "abc")).String = Except.ok (lit "abc") ∧
    Atoi (lit "3") = (3, none) ∧
    succeeded (ValidateLen (stringValue (lit "abc")) [lit "3", lit "7", lit "x"]) = true :=
  have ha : IsASCII "abc" := by unfold IsASCII; decide
  ⟨ha, by decide, by decide, by decide,
    (ValidateLen_ascii_text_exact "abc" (stringValue (lit "abc")) (lit "3") [lit "7", lit "x"] 3
      ha (by decide) (by decide) (by decide)).1.2 (by decide)⟩

/-- C9: for a value of kind `Int` and a non-empty token list, `ValidateLen`
never succeeds: it returns `ErrValidateForUnsupportedValidator` when the first
token parses as an integer and `ErrInvalidValidatorSyntax` when it does not. -/
theorem ValidateLen_integer_never_succeeds (val : Value) (tok : GoString)
    (rest : List GoString) (hk : val.Kind = Kind.Int) :
    ValidateLen val (tok :: rest) =
      Except.ok (some (if (Atoi tok).2 = none then ErrValidateForUnsupportedValidator
        else ErrInvalidValidatorSyntax)) ∧
    succeeded (ValidateLen val (tok :: rest)) = false := by
  by_cases h : (Atoi tok).2 = none <;> simp [ValidateLen, index, h, hk]

theorem ValidateLen_integer_never_succeeds_witness :
    (intValue 3).Kind = Kind.Int ∧
    ValidateLen (intValue 3) [lit "3"] = Except.ok (some ErrValidateForUnsupportedValidator) ∧
    ValidateLen (intValue 3) [lit "x", lit "3"] = Except.ok (some ErrInvalidValidatorSyntax) :=
  ⟨by decide,
    (ValidateLen_integer_never_succeeds (intValue 3) (lit "3") [] (by decide)).1.trans
      (by decide),
    (ValidateLen_integer_never_succeeds (intValue 3) (lit "x") [lit "3"] (by decide)).1.trans
      (by decide)⟩

/-- C10: for every value, every argument list and every direction,
`ValidateMaxMin` returns `ErrInvalidValidatorSyntax` if and only if the argument
list does not have exactly one token or that token does not parse as an
integer; the condition mentions neither the value nor the direction. -/
theorem ValidateMaxMin_invalid_syntax_iff (val : Value) (args : List GoString) (t : Int) :
    ValidateMaxMin val args t = Except.ok (some ErrInvalidValidatorSyntax) ↔
      (args.length ≠ 1 ∨ ∃ tok, args = [tok] ∧ (Atoi tok).2 ≠ none) := by
  match args with
  | [] => simp [ValidateMaxMin]
  | _ :: _ :: _ => simp [ValidateMaxMin]
  | [tok] =>
    by_cases h : (Atoi tok).2 = none
    · rcases ValidateMaxMin_parsed val tok t h with h1 | ⟨msg, h1⟩
      · simp [h1, h]
      · simp [h1, h, errors.New]
    · simp [ValidateMaxMin, index, h]

/-- C11: for an exported field with a non-empty annotation, the parsing step of
`Validate` rejects the annotation (`ErrInvalidValidatorSyntax` is the failure
of the field whatever its kind and value) if and only if the annotation
contains no ":" or nothing follows its first ":"; otherwise the annotation is
cut at its first ":" only, into the rule name before it and the argument blob
after it, further ":" included, so that `in:a:b` on a text field holding
"a:b" succeeds. -/
theorem annotation_rejected_iff (tag : GoString) (ht : tag ≠ lit "") :
    ((∀ value : Value,
        fieldFailures ⟨tag, true, value⟩ = [⟨some ErrInvalidValidatorSyntax⟩]) ↔
      ((58 : Byte) ∉ tag ∨ ∃ name : GoString, (58 : Byte) ∉ name ∧ tag = name ++ [58])) ∧
    (¬ ((58 : Byte) ∉ tag ∨ ∃ name : GoString, (58 : Byte) ∉ name ∧ tag = name ++ [58]) →
      ∃ name blob : GoString, (58 : Byte) ∉ name ∧ blob ≠ [] ∧ tag = name ++ 58 :: blob ∧
        SplitN tag 58 2 = [name, blob]) ∧
    Validate (some ⟨Kind.Struct, [⟨lit "in:a:b", true, stringValue (lit "a:b")⟩]⟩) =
      Except.ok Returned.nil := by
  have cut : ¬ ((58 : Byte) ∉ tag ∨ ∃ name : GoString, (58 : Byte) ∉ name ∧ tag = name ++ [58]) →
      ∃ name blob : GoString, (58 : Byte) ∉ name ∧ blob ≠ [] ∧ tag = name ++ 58 :: blob := by
    intro h
    have hmem : ¬ ((58 : Byte) ∉ tag) := fun hc => h (Or.inl hc)
    cases hi : IndexByte tag 58 with
    | none => exact absurd ((IndexByte_eq_none_iff tag 58).1 hi) hmem
    | some m =>
      obtain ⟨h1, h2⟩ := IndexByte_some tag 58 m hi
      refine ⟨tag.take m, tag.drop (m + 1), h1, ?_, h2⟩
      intro hb
      rw [hb] at h2
      exact h (Or.inr ⟨tag.take m, h1, h2⟩)
  refine ⟨⟨fun hall => ?_, fun hc value => ?_⟩, fun h => ?_, by decide⟩
  · by_contra hneg
    obtain ⟨name, blob, hn, hb, hcut⟩ := cut hneg
    have h1 := hall ⟨Kind.Bool, 0, []⟩
    have hkind : (⟨Kind.Bool, 0, []⟩ : Value).Kind ≠ Kind.Int ∧
        (⟨Kind.Bool, 0, []⟩ : Value).Kind ≠ Kind.String := by decide
    rw [fieldFailures_of_unsupported_type ⟨tag, true, ⟨Kind.Bool, 0, []⟩⟩ name blob rfl hn hb hcut
      hkind] at h1
    simp at h1
  · rcases hc with hc | ⟨name, hn, hcut⟩
    · exact fieldFailures_of_no_colon ⟨tag, true, value⟩ ht rfl hc
    · exact fieldFailures_of_empty_blob ⟨tag, true, value⟩ name rfl hn hcut
  · obtain ⟨name, blob, hn, hb, hcut⟩ := cut h
    exact ⟨name, blob, hn, hb, hcut, by rw [hcut]; exact SplitN_of_cut name blob 58 hn⟩

theorem annotation_rejected_iff_witness :
    lit "max:" ≠ lit "" ∧
    fieldFailures ⟨lit "max:", true, intValue 1⟩ = [⟨some ErrInvalidValidatorSyntax⟩] ∧
    fieldFailures ⟨lit "max:", true, stringValue (lit "a")⟩ =
      [⟨some ErrInvalidValidatorSyntax⟩] :=
  have h := (annotation_rejected_iff (lit "max:") (by decide)).1.2
    (Or.inr ⟨lit "max", by decide, by decide⟩)
  ⟨by decide, h (intValue 1), h (stringValue (lit "a"))⟩

/-- C12: for every struct and every field of it that is not exported and
carries a non-empty annotation, `Validate` records exactly one failure for
that field, `ErrValidateForUnexportedFields`, whatever the annotation holds
and whatever the kind and value of the field. -/
theorem unexported_field_is_reported (pre post : List StructField) (f : StructField)
    (ht : f.tag ≠ lit "") (hx : f.exported = false) :
    fieldFailures f = [⟨some ErrValidateForUnexportedFields⟩] ∧
    Validate (some ⟨Kind.Struct, pre ++ f :: post⟩) =
      Except.ok (Returned.errs (pre.flatMap fieldFailures ++
        ⟨some ErrValidateForUnexportedFields⟩ :: post.flatMap fieldFailures)) :=
  ⟨fieldFailures_of_unexported f ht hx,
    Validate_of_failing_field pre post f _ (fieldFailures_of_unexported f ht hx)⟩

theorem unexported_field_is_reported_witness :
    lit "max:10" ≠ lit "" ∧
    Validate (some ⟨Kind.Struct, [⟨lit "max:10", false, intValue 3⟩]⟩) =
      Except.ok (Returned.errs [⟨some ErrValidateForUnexportedFields⟩]) :=
  ⟨by decide,
    (unexported_field_is_reported [] [] ⟨lit "max:10", false, intValue 3⟩
      (by decide) rfl).2⟩

/-- C13: for every exported field whose annotation is cut at its first ":" into
a rule name and a non-empty argument blob, and whose kind is neither `Int` nor
`String`, `Validate` records exactly `ErrValidateForUnsupportedType` for that
field, whatever the rule name. -/
theorem unsupported_type_is_reported (pre post : List StructField) (f : StructField)
    (name blob : GoString) (hx : f.exported = true) (hn : (58 : Byte) ∉ name)
    (hb : blob ≠ []) (ht : f.tag = name ++ 58 :: blob)
    (hk : f.value.Kind ≠ Kind.Int ∧ f.value.Kind ≠ Kind.String) :
    fieldFailures f = [⟨some ErrValidateForUnsupportedType⟩] ∧
    Validate (some ⟨Kind.Struct, pre ++ f :: post⟩) =
      Except.ok (Returned.errs (pre.flatMap fieldFailures ++
        ⟨some ErrValidateForUnsupportedType⟩ :: post.flatMap fieldFailures)) :=
  ⟨fieldFailures_of_unsupported_type f name blob hx hn hb ht hk,
    Validate_of_failing_field pre post f _
      (fieldFailures_of_unsupported_type f name blob hx hn hb ht hk)⟩

theorem unsupported_type_is_reported_witness :
    (58 : Byte) ∉ lit "foo" ∧ lit "1" ≠ [] ∧ lit "foo:1" = lit "foo" ++ 58 :: lit "1" ∧
    Validate (some ⟨Kind.Struct, [⟨lit "foo:1", true, ⟨Kind.Bool, 0, []⟩⟩]⟩) =
      Except.ok (Returned.errs [⟨some ErrValidateForUnsupportedType⟩]) :=
  ⟨by decide, by decide, by decide,
    (unsupported_type_is_reported [] [] ⟨lit "foo:1", true, ⟨Kind.Bool, 0, []⟩⟩
      (lit "foo") (lit "1") rfl (by decide) (by decide) (by decide) (by decide)).2⟩

/-- C14: for every exported field of kind `Int` or `String` whose annotation is
cut at its first ":" into a rule name and a non-empty argument blob, and whose
rule name is none of `in`, `max`, `min`, `len`, `Validate` records exactly
`ErrValidateForUnsupportedValidator` for that field, whatever the arguments
and the value. -/
theorem unknown_rule_is_reported (pre post : List StructField) (f : StructField)
    (name blob : GoString) (hx : f.exported = true) (hn : (58 : Byte) ∉ name)
    (hb : blob ≠ []) (ht : f.tag = name ++ 58 :: blob)
    (hk : f.value.Kind = Kind.Int ∨ f.value.Kind = Kind.String)
    (h1 : name ≠ lit "in") (h2 : name ≠ lit "max") (h3 : name ≠ lit "min")
    (h4 : name ≠ lit "len") :
    fieldFailures f = [⟨some ErrValidateForUnsupportedValidator⟩] ∧
    Validate (some ⟨Kind.Struct, pre ++ f :: post⟩) =
      Except.ok (Returned.errs (pre.flatMap fieldFailures ++
        ⟨some ErrValidateForUnsupportedValidator⟩ :: post.flatMap fieldFailures)) :=
  ⟨fieldFailures_of_unknown_rule f name blob hx hn hb ht hk h1 h2 h3 h4,
    Validate_of_failing_field pre post f _
      (fieldFailures_of_unknown_rule f name blob hx hn hb ht hk h1 h2 h3 h4)⟩

theorem unknown_rule_is_reported_witness :
    (58 : Byte) ∉ lit "foo" ∧ lit "1" ≠ [] ∧ lit "foo:1" = lit "foo" ++ 58 :: lit "1" ∧
    Validate (some ⟨Kind.Struct, [⟨lit "foo:1", true, intValue 1⟩]⟩) =
      Except.ok (Returned.errs [⟨some ErrValidateForUnsupportedValidator⟩]) :=
  ⟨by decide, by decide, by decide,
    (unknown_rule_is_reported [] [] ⟨lit "foo:1", true, intValue 1⟩
      (lit "foo") (lit "1") rfl (by decide) (by decide) (by decide) (Or.inl rfl)
      (by decide) (by decide) (by decide) (by decide)).2⟩

/-- C15: a field without annotation contributes nothing to the result of
`Validate`, whatever its kind, visibility and value: the result on a struct is
the result on the struct without its unannotated fields, and it is nil for a
struct with no annotated field, the struct without fields included. -/
theorem unannotated_fields_contribute_nothing :
    (∀ f : StructField, f.tag = lit "" → fieldFailures f = []) ∧
    (∀ fields : List StructField,
      Validate (some ⟨Kind.Struct, fields⟩) =
        Validate (some ⟨Kind.Struct, fields.filter (fun f => decide (f.tag ≠ lit ""))⟩)) ∧
    (∀ fields : List StructField, (∀ f ∈ fields, f.tag = lit "") →
      Validate (some ⟨Kind.Struct, fields⟩) = Except.ok Returned.nil) ∧
    Validate (some ⟨Kind.Struct, []⟩) = Except.ok Returned.nil := by
  have hfilter : ∀ fields : List StructField,
      (fields.filter (fun f => decide (f.tag ≠ lit ""))).flatMap fieldFailures =
        fields.flatMap fieldFailures := by
    intro fields
    induction fields with
    | nil => rfl
    | cons f rest ih =>
      by_cases h : f.tag = lit ""
      · rw [List.filter_cons_of_neg (by simp [h]), List.flatMap_cons,
          fieldFailures_of_no_tag f h, ih]
        rfl
      · rw [List.filter_cons_of_pos (by simp [h]), List.flatMap_cons, List.flatMap_cons, ih]
  refine ⟨fieldFailures_of_no_tag, fun fields => ?_, fun fields h => ?_, rfl⟩
  · rw [Validate_of_struct, Validate_of_struct, hfilter]
  · have h0 : fields.flatMap fieldFailures = [] := by
      induction fields with
      | nil => rfl
      | cons f rest ih =>
        have hf := fieldFailures_of_no_tag f (h f (List.mem_cons_self f rest))
        have hr := ih (fun g hg => h g (List.mem_cons_of_mem f hg))
        simp [List.flatMap_cons, hf, hr]
    rw [Validate_of_struct, h0]
    rfl

/-- C16, as stated, fails: on the sequence of one failure whose `Err` is nil,
`Error()` panics in `err.Err.Error()` and returns no string. -/
theorem Error_of_nil_Err_panics :
    ValidationErrors.Error id [⟨none⟩] = Except.error Fault.nilDereference := by
  decide

/-- C16, amended: for every `ValidationErrors` sequence whose failures each
hold a non-nil error, `Error()` is the messages of the failures, in sequence
order, joined by the delimiter " >>= ", with no delimiter before the first or
after the last: the empty string for the empty sequence, the message of the
failure for a sequence of one; nothing is assumed of the messages, which may
contain or end with the delimiter. Every sequence that `Validate` returns is
such a sequence. -/
theorem ValidationErrors_Error_joins_messages (Quote : GoString → GoString)
    (v : ValidationErrors) (h : ∀ err ∈ v, err.Err ≠ none) :
    ValidationErrors.Error Quote v =
      Except.ok (Join (v.map (fun err => err.message Quote)) (lit " >>= ")) ∧
    ValidationErrors.Error Quote [] = Except.ok (lit "") ∧
    (∀ e : ErrorValue, ValidationErrors.Error Quote [⟨some e⟩] = Except.ok (e.Error Quote)) ∧
    (∀ (fields : List StructField) (w : ValidationErrors),
      Validate (some ⟨Kind.Struct, fields⟩) = Except.ok (Returned.errs w) →
        ValidationErrors.Error Quote w =
          Except.ok (Join (w.map (fun err => err.message Quote)) (lit " >>= "))) := by
  refine ⟨ValidationErrors.Error_eq Quote v h, ?_, fun e => ?_, fun fields w hw => ?_⟩
  · exact ValidationErrors.Error_eq Quote [] (by simp)
  · exact ValidationErrors.Error_eq Quote [⟨some e⟩] (by simp)
  · exact ValidationErrors.Error_eq Quote w (Validate_failures_hold_errors fields w hw)

theorem ValidationErrors_Error_joins_messages_witness :
    (∀ err ∈ ([⟨some ErrNotStruct⟩, ⟨some (errors.New (lit "x >>= "))⟩,
        ⟨some (errors.New (lit "y >>= "))⟩] : ValidationErrors), err.Err ≠ none) ∧
    ValidationErrors.Error id [⟨some ErrNotStruct⟩, ⟨some (errors.New (lit "x >>= "))⟩,
        ⟨some (errors.New (lit "y >>= "))⟩] =
      Except.ok (lit "wrong argument given, should be a struct >>= x >>=  >>= y >>= ") :=
  ⟨by decide,
    (ValidationErrors_Error_joins_messages id [⟨some ErrNotStruct⟩,
      ⟨some (errors.New (lit "x >>= "))⟩, ⟨some (errors.New (lit "y >>= "))⟩]
      (by decide)).1.trans (by decide)⟩

/-- C17, as stated, fails: on an integer field holding 5 the annotation
`max:10` is satisfied and `max: 10` is rejected with
`ErrInvalidValidatorSyntax`, and `in:1, 2` on an integer field holding 2 fails
with "value is not found". -/
theorem tokens_are_not_trimmed :
    Validate (some ⟨Kind.Struct, [⟨lit "max:10", true, intValue 5⟩]⟩) =
      Except.ok Returned.nil ∧
    Validate (some ⟨Kind.Struct, [⟨lit "max: 10", true, intValue 5⟩]⟩) =
      Except.ok (Returned.errs [⟨some ErrInvalidValidatorSyntax⟩]) ∧
    Validate (some ⟨Kind.Struct, [⟨lit "in:1, 2", true, intValue 2⟩]⟩) =
      Except.ok (Returned.errs [⟨some (errors.New (lit "value is not found"))⟩]) := by
  decide

/-- C17, amended: the argument tokens are the pieces of the argument blob
between its commas, as they are (joined by commas they give the blob back),
and the evaluators use them as they are. A token that holds a byte other than
a decimal digit or a sign, white space for one, does not parse as an integer.
So on an exported field of kind `Int` or `String`: `max` and `min` record
`ErrInvalidValidatorSyntax` when the blob holds such a byte, `len` does when its
first token holds one, `in` on a string succeeds exactly when the string is
one of the tokens, and `in` on an integer other than 0 and the two bounds of
`int` succeeds exactly when one of the tokens parses as that integer. -/
theorem tokens_are_used_verbatim (blob : GoString) (value : Value) (hb : blob ≠ [])
    (hk : value.Kind = Kind.Int ∨ value.Kind = Kind.String) :
    Join (Split blob 44) [44] = blob ∧
    (∀ tok ∈ Split blob 44, (44 : Byte) ∉ tok) ∧
    (∀ c : Byte, c = 32 ∨ c = 9 ∨ c = 10 ∨ c = 11 ∨ c = 12 ∨ c = 13 → isIntByte c = false) ∧
    (∀ (tok : GoString) (c : Byte), c ∈ tok → isIntByte c = false → (Atoi tok).2 ≠ none) ∧
    ((∃ c ∈ blob, isIntByte c = false) →
      fieldFailures ⟨lit "max" ++ 58 :: blob, true, value⟩ =
        [⟨some ErrInvalidValidatorSyntax⟩] ∧
      fieldFailures ⟨lit "min" ++ 58 :: blob, true, value⟩ =
        [⟨some ErrInvalidValidatorSyntax⟩]) ∧
    (∀ (tok : GoString) (rest : List GoString), Split blob 44 = tok :: rest →
      (∃ c ∈ tok, isIntByte c = false) →
      fieldFailures ⟨lit "len" ++ 58 :: blob, true, value⟩ =
        [⟨some ErrInvalidValidatorSyntax⟩]) ∧
    (value.Kind = Kind.String →
      fieldFailures ⟨lit "in" ++ 58 :: blob, true, value⟩ =
        if value.str ∈ Split blob 44 then []
        else [⟨some (errors.New (lit "value is not found"))⟩]) ∧
    (value.Kind = Kind.Int → value.num ≠ 0 → value.num ≠ 2 ^ 63 - 1 →
      value.num ≠ -(2 ^ 63) →
      fieldFailures ⟨lit "in" ++ 58 :: blob, true, value⟩ =
        if ∃ tok ∈ Split blob 44, Atoi tok = (value.num, none) then []
        else [⟨some (errors.New (lit "value is not found"))⟩]) := by
  refine ⟨?_, ?_, ?_, Atoi_of_not_int_byte, ?_, ?_, ?_, ?_⟩
  · rw [Split_eq_loop]
    exact genSplit.loop_join 44 _ blob
  · rw [Split_eq_loop]
    exact genSplit.loop_not_mem 44 _ blob (Nat.le_refl _)
  · intro c hc
    rcases hc with h | h | h | h | h | h <;> rw [h] <;> decide
  · rintro ⟨c, hc, hbad⟩
    exact ⟨fieldFailures_of_max ⟨lit "max" ++ 58 :: blob, true, value⟩ blob _ rfl hb rfl hk
        (ValidateMaxMin_of_not_int_byte value blob Max c hc hbad),
      fieldFailures_of_min ⟨lit "min" ++ 58 :: blob, true, value⟩ blob _ rfl hb rfl hk
        (ValidateMaxMin_of_not_int_byte value blob Min c hc hbad)⟩
  · rintro tok rest hsplit ⟨c, hc, hbad⟩
    exact fieldFailures_of_len ⟨lit "len" ++ 58 :: blob, true, value⟩ blob _ rfl hb rfl hk
      (hsplit ▸ ValidateLen_of_not_int_byte value tok rest c hc hbad)
  · intro hs
    rw [fieldFailures_of_in ⟨lit "in" ++ 58 :: blob, true, value⟩ blob _ rfl hb rfl hk
      (ValidateIn_of_string value value.str hs (Value.String_of_kind value hs) (Split blob 44))]
    by_cases hmem : value.str ∈ Split blob 44 <;> simp [hmem, errorFailures]
  · intro hi h0 hmax hmin
    rw [fieldFailures_of_in ⟨lit "in" ++ 58 :: blob, true, value⟩ blob _ rfl hb rfl hk
      (ValidateIn_of_int value value.num hi (Value.Int_of_kind value hi) (Split blob 44))]
    have hiff : (Split blob 44).any (fun tok => decide ((Atoi tok).1 = value.num)) = true ↔
        ∃ tok ∈ Split blob 44, Atoi tok = (value.num, none) := by
      rw [List.any_eq_true]
      constructor
      · rintro ⟨tok, htok, hv⟩
        have hv2 : (Atoi tok).1 = value.num := by simpa using hv
        refine ⟨tok, htok, Prod.ext hv2 ?_⟩
        by_contra herr
        rcases Atoi_value_of_error tok herr with h | h | h
        · exact h0 (hv2 ▸ h)
        · exact hmax (hv2 ▸ h)
        · exact hmin (hv2 ▸ h)
      · rintro ⟨tok, htok, hv⟩
        exact ⟨tok, htok, by simp [hv]⟩
    by_cases hany : (Split blob 44).any (fun tok => decide ((Atoi tok).1 = value.num)) = true
    · rw [if_pos hany, if_pos (hiff.1 hany)]
      rfl
    · rw [if_neg hany, if_neg (fun h => hany (hiff.2 h))]
      rfl

theorem tokens_are_used_verbatim_witness :
    Split (lit "a ,b") 44 = [lit "a ", lit "b"] ∧
    fieldFailures ⟨lit "max: 10", true, intValue 5⟩ = [⟨some ErrInvalidValidatorSyntax⟩] ∧
    fieldFailures ⟨lit "max:10 ", true, intValue 5⟩ = [⟨some ErrInvalidValidatorSyntax⟩] ∧
    fieldFailures ⟨lit "len:3 ", true, stringValue (lit "abc")⟩ =
      [⟨some ErrInvalidValidatorSyntax⟩] ∧
    fieldFailures ⟨lit "in:a ,b", true, stringValue (lit "a")⟩ =
      [⟨some (errors.New (lit "value is not found"))⟩] ∧
    fieldFailures ⟨lit "in:1, 2", true, intValue 2⟩ =
      [⟨some (errors.New (lit "value is not found"))⟩] :=
  ⟨by decide,
    ((tokens_are_used_verbatim (lit " 10") (intValue 5) (by decide) (Or.inl rfl)).2.2.2.2.1
      ⟨32, by decide, by decide⟩).1,
    ((tokens_are_used_verbatim (lit "10 ") (intValue 5) (by decide) (Or.inl rfl)).2.2.2.2.1
      ⟨32, by decide, by decide⟩).1,
    (tokens_are_used_verbatim (lit "3 ") (stringValue (lit "abc")) (by decide)
      (Or.inr rfl)).2.2.2.2.2.1 (lit "3 ") [] (by decide) ⟨32, by decide, by decide⟩,
    ((tokens_are_used_verbatim (lit "a ,b") (stringValue (lit "a")) (by decide)
      (Or.inr rfl)).2.2.2.2.2.2.1 rfl).trans (by decide),
    ((tokens_are_used_verbatim (lit "1, 2") (intValue 2) (by decide)
      (Or.inl rfl)).2.2.2.2.2.2.2 rfl (by decide) (by decide) (by decide)).trans (by
        rw [if_neg]
        decide)⟩

/-- C18: for a value of kind `Int` holding `v` and a token list in which some
token parses as an integer equal to `v`, `ValidateIn` succeeds, wherever the
other tokens, parsed or not, stand in the list. -/
theorem ValidateIn_match_is_never_masked (val : Value) (v : Int) (tokens : List GoString)
    (tok : GoString) (hk : val.Kind = Kind.Int) (hv : val.Int = Except.ok v)
    (hmem : tok ∈ tokens) (hp : Atoi tok = (v, none)) :
    ValidateIn val tokens = Except.ok none := by
  rw [ValidateIn_of_int val v hk hv tokens]
  have h : tokens.any (fun t => decide ((Atoi t).1 = v)) = true :=
    List.any_eq_true.2 ⟨tok, hmem, by simp [hp]⟩
  simp [h]

theorem ValidateIn_match_is_never_masked_witness :
    (intValue 2).Kind = Kind.Int ∧ (intValue 2).Int = Except.ok 2 ∧
    lit "2" ∈ [lit "x", lit "2", lit "y"] ∧ Atoi (lit "2") = (2, none) ∧
    (Atoi (lit "x")).2 ≠ none ∧ (Atoi (lit "y")).2 ≠ none ∧
    ValidateIn (intValue 2) [lit "x", lit "2", lit "y"] = Except.ok none :=
  ⟨by decide, by decide, by decide, by decide, by decide, by decide,
    ValidateIn_match_is_never_masked (intValue 2) 2 [lit "x", lit "2", lit "y"] (lit "2")
      (by decide) (by decide) (by decide) (by decide)⟩

/-- C19: for a value of kind `Int` and every token list, `ValidateIn` returns
nil or the error made by `errors.New` with message "value is not found"; it
never returns the error of a failed parse. -/
theorem ValidateIn_integer_failure_is_generic (val : Value) (tokens : List GoString)
    (hk : val.Kind = Kind.Int) :
    (ValidateIn val tokens = Except.ok none ∨
      ValidateIn val tokens = Except.ok (some (errors.New (lit "value is not found")))) ∧
    (∀ e : ErrorValue, ValidateIn val tokens = Except.ok (some e) →
      e = errors.New (lit "value is not found")) ∧
    (∀ ne : NumError, ValidateIn val tokens ≠ Except.ok (some (ErrorValue.num ne))) := by
  rw [ValidateIn_of_int val val.num hk (Value.Int_of_kind val hk) tokens]
  cases tokens.any (fun tok => decide ((Atoi tok).1 = val.num)) <;> simp [errors.New]

theorem ValidateIn_integer_failure_is_generic_witness :
    (intValue 5).Kind = Kind.Int ∧ (Atoi (lit "x")).2 ≠ none ∧
    ValidateIn (intValue 5) [lit "1", lit "x"] =
      Except.ok (some (errors.New (lit "value is not found"))) :=
  ⟨by decide, by decide,
    ((ValidateIn_integer_failure_is_generic (intValue 5) [lit "1", lit "x"]
      (by decide)).1.resolve_left (by decide))⟩

/-- C20: for every struct input `Validate` returns, it does not panic: the
argument list that it hands to an evaluator, the argument blob split on ",",
has at least one token, and on a list with at least one token each of the
evaluators returns, for a value of any kind (no index out of range, and no
accessor applied to a value of another kind). -/
theorem Validate_never_panics :
    (∀ fields : List StructField, ∃ r, Validate (some ⟨Kind.Struct, fields⟩) = Except.ok r) ∧
    (∀ blob : GoString, Split blob 44 ≠ []) ∧
    (∀ (val : Value) (tok : GoString) (rest : List GoString),
      ∃ e, ValidateLen val (tok :: rest) = Except.ok e) ∧
    (∀ (val : Value) (args : List GoString) (t : Int),
      ∃ e, ValidateMaxMin val args t = Except.ok e) ∧
    (∀ (val : Value) (tokens : List GoString), ∃ e, ValidateIn val tokens = Except.ok e) := by
  refine ⟨fun fields => ⟨_, Validate_of_struct fields⟩, fun blob => ?_, ValidateLen_total,
    ValidateMaxMin_total, ValidateIn_total⟩
  obtain ⟨tok, rest, h⟩ := Split_eq_cons blob 44
  simp [h]

end Validator
